import Mathlib

/-!
Shallow embedding of the zeus visual-layout-editor core
(`src/zeus/core/*.py`, `src/zeus/widgets/*.py`, `src/zeus/models/schema.py`,
`src/zeus/utils/helpers.py`, plus the selection-related slices of
`src/zeus/ui/canvas.py` and `src/zeus/ui/explorer.py`), together with
theorems settling the frozen claims about that code.

Python dictionaries are embedded as association lists with insertion-order
semantics: assigning to an existing key overwrites it in place, assigning a
new key appends it.  Python `None` is embedded as an explicit `null`
constructor of the value type.  Fresh `uuid4` identifiers are embedded as
explicit `freshId` parameters, and `datetime.now().isoformat()` timestamps
as explicit `now` parameters.
-/

namespace Zeus

/-- A Python value stored in a component property bag (`_properties` holds
`Any`; the values actually used by the widgets are strings, ints and bools,
and `None` can be stored by `ChangePropertyCommand.undo`). -/
inductive PValue where
  | s (v : String)
  | i (v : Int)
  | b (v : Bool)
  | null
deriving DecidableEq, Repr

/-! ## Python dict embedding -/

/-- `d.get(k)`: first (and for a real dict, only) binding of `k`. -/
def dictGet {α : Type} (d : List (String × α)) (k : String) : Option α :=
  (d.find? (fun p => p.1 == k)).map (fun p => p.2)

/-- `d[k] = v`: overwrite in place when the key is present, append otherwise. -/
def dictSet {α : Type} (d : List (String × α)) (k : String) (v : α) :
    List (String × α) :=
  if (dictGet d k).isSome then
    d.map (fun p => if p.1 = k then (k, v) else p)
  else
    d ++ [(k, v)]

/-- `d.update(e)`: set every binding of `e` into `d`, in order. -/
def dictUpdate {α : Type} (d e : List (String × α)) : List (String × α) :=
  e.foldl (fun acc p => dictSet acc p.1 p.2) d

/-- `d.pop(k)` (discarding the value): drop the binding of `k`. -/
def dictRemove {α : Type} (d : List (String × α)) (k : String) :
    List (String × α) :=
  d.filter (fun p => p.1 != k)

theorem dictGet_nil {α : Type} (k : String) : dictGet ([] : List (String × α)) k = none := rfl

theorem dictGet_cons {α : Type} (p : String × α) (d : List (String × α)) (k : String) :
    dictGet (p :: d) k = if p.1 == k then some p.2 else dictGet d k := by
  simp only [dictGet, List.find?]
  by_cases h : p.1 == k
  · simp [h]
  · simp [h]

theorem dictGet_eq_none_iff {α : Type} (d : List (String × α)) (k : String) :
    dictGet d k = none ↔ k ∉ d.map Prod.fst := by
  induction d with
  | nil => simp [dictGet]
  | cons p d ih =>
    by_cases h : p.1 = k
    · simp [dictGet_cons, h]
    · simp [dictGet_cons, h, ih, not_or, Ne.symm h]

theorem dictGet_isSome_iff {α : Type} (d : List (String × α)) (k : String) :
    (dictGet d k).isSome = true ↔ k ∈ d.map Prod.fst := by
  simp [Option.isSome_iff_ne_none, dictGet_eq_none_iff]

theorem dictGet_append {α : Type} (d e : List (String × α)) (k : String) :
    dictGet (d ++ e) k = (dictGet d k).or (dictGet e k) := by
  induction d with
  | nil => simp [dictGet]
  | cons p d ih =>
    by_cases h : p.1 = k
    · simp [dictGet_cons, h, List.cons_append]
    · simp [dictGet_cons, h, List.cons_append, ih]

theorem keys_dictSet_of_isSome {α : Type} (d : List (String × α)) (k : String) (v : α)
    (h : (dictGet d k).isSome) :
    (dictSet d k v).map Prod.fst = d.map Prod.fst := by
  simp only [dictSet, h, if_true, List.map_map]
  apply List.map_congr_left
  intro p _
  by_cases hp : p.1 = k
  · simp [hp]
  · simp [hp]

theorem dictGet_isNone_of_keys_eq {α : Type} (d₁ d₂ : List (String × α))
    (h : d₁.map Prod.fst = d₂.map Prod.fst) (k : String) :
    (dictGet d₁ k).isNone = (dictGet d₂ k).isNone := by
  have h₁ : dictGet d₁ k = none ↔ dictGet d₂ k = none := by
    rw [dictGet_eq_none_iff, dictGet_eq_none_iff, h]
  cases hd₁ : dictGet d₁ k <;> cases hd₂ : dictGet d₂ k <;> simp_all

/-- The shape of `d.update(e)` for an update dict `e` with distinct keys:
each binding of `d` gets `e`'s value when `e` has the key, and the bindings
of `e` whose keys are new to `d` are appended in order. -/
theorem dictUpdate_eq_of_nodup {α : Type} (e : List (String × α))
    (he : (e.map Prod.fst).Nodup) (d : List (String × α)) :
    dictUpdate d e =
      d.map (fun p => (p.1, (dictGet e p.1).getD p.2)) ++
      e.filter (fun p => (dictGet d p.1).isNone) := by
  induction e generalizing d with
  | nil => simp [dictUpdate, dictGet]
  | cons q e ih =>
    obtain ⟨k, v⟩ := q
    simp only [List.map_cons, List.nodup_cons] at he
    obtain ⟨hk, he⟩ := he
    have hstep : dictUpdate d ((k, v) :: e) = dictUpdate (dictSet d k v) e := by
      simp [dictUpdate]
    rw [hstep, ih he]
    have hgetk : dictGet e k = none := (dictGet_eq_none_iff e k).mpr hk
    by_cases hmem : (dictGet d k).isSome
    · -- overwriting an existing key: the keys of `d` are unchanged
      have hset : dictSet d k v = d.map (fun p => if p.1 = k then (k, v) else p) := by
        simp [dictSet, hmem]
      have hmap : (dictSet d k v).map (fun p => (p.1, (dictGet e p.1).getD p.2)) =
          d.map (fun p => (p.1, (dictGet ((k, v) :: e) p.1).getD p.2)) := by
        rw [hset, List.map_map]
        apply List.map_congr_left
        intro p _
        by_cases hp : p.1 = k
        · simp [Function.comp, hp, dictGet_cons, hgetk]
        · simp [Function.comp, hp, dictGet_cons, Ne.symm hp]
      have hfil : e.filter (fun p => (dictGet (dictSet d k v) p.1).isNone) =
          e.filter (fun p => (dictGet d p.1).isNone) := by
        apply List.filter_congr
        intro p _
        exact dictGet_isNone_of_keys_eq _ _ (keys_dictSet_of_isSome d k v hmem) p.1
      have hhead : (dictGet d k).isNone = false := by
        cases hd : dictGet d k <;> simp_all
      rw [hmap, hfil, List.filter_cons]
      simp [hhead]
    · -- a new key: it is appended to `d`
      have hnone : dictGet d k = none := by
        cases hd : dictGet d k <;> simp_all
      have hknotin : k ∉ d.map Prod.fst := (dictGet_eq_none_iff d k).mp hnone
      have hset : dictSet d k v = d ++ [(k, v)] := by
        simp [dictSet, hmem]
      have hmap : (d ++ [(k, v)]).map (fun p => (p.1, (dictGet e p.1).getD p.2)) =
          d.map (fun p => (p.1, (dictGet ((k, v) :: e) p.1).getD p.2)) ++ [(k, v)] := by
        rw [List.map_append]
        congr 1
        · apply List.map_congr_left
          intro p hp
          have hpk : p.1 ≠ k := by
            intro hcontra
            exact hknotin (hcontra ▸ List.mem_map_of_mem Prod.fst hp)
          simp [dictGet_cons, Ne.symm hpk]
        · simp [hgetk]
      have hfil : e.filter (fun p => (dictGet (d ++ [(k, v)]) p.1).isNone) =
          e.filter (fun p => (dictGet d p.1).isNone) := by
        apply List.filter_congr
        intro p hp
        have hpk : p.1 ≠ k := by
          intro hcontra
          exact hk (hcontra ▸ List.mem_map_of_mem Prod.fst hp)
        have : dictGet [(k, v)] p.1 = none := by
          simp [dictGet_cons, Ne.symm hpk, dictGet_nil]
        rw [dictGet_append, this, Option.or_none]
      rw [hset, hmap, hfil, List.filter_cons]
      simp only [hnone, Option.isNone_none, if_true]
      simp

theorem map_lookup_eq_left {α : Type} (I : List (String × α)) :
    ∀ pA pB : List (String × α), pA.map Prod.fst = I.map Prod.fst →
      ((pA ++ pB).map Prod.fst).Nodup →
      I.map (fun p => (p.1, (dictGet (pA ++ pB) p.1).getD p.2)) = pA := by
  induction I with
  | nil =>
    intro pA pB hfst _
    simp only [List.map_nil, List.map_eq_nil_iff] at hfst ⊢
    exact hfst.symm ▸ rfl
  | cons q I ih =>
    intro pA pB hfst hnd
    cases pA with
    | nil => simp at hfst
    | cons a pA =>
      simp only [List.map_cons, List.cons.injEq] at hfst
      obtain ⟨hfst1, hfst2⟩ := hfst
      simp only [List.cons_append, List.map_cons, List.nodup_cons] at hnd
      obtain ⟨hnotin, hnd⟩ := hnd
      simp only [List.map_cons, List.cons_append]
      congr 1
      · simp [dictGet_cons, hfst1, Prod.ext_iff]
      · have hcongr : I.map (fun p => (p.1, (dictGet (a :: (pA ++ pB)) p.1).getD p.2)) =
            I.map (fun p => (p.1, (dictGet (pA ++ pB) p.1).getD p.2)) := by
          apply List.map_congr_left
          intro p hp
          have hpmem : p.1 ∈ I.map Prod.fst := List.mem_map_of_mem Prod.fst hp
          rw [← hfst2] at hpmem
          have hpa : p.1 ∈ (pA ++ pB).map Prod.fst := by
            rw [List.map_append]
            exact List.mem_append_left _ hpmem
          have hne : a.1 ≠ p.1 := fun h => hnotin (h ▸ hpa)
          rw [dictGet_cons]
          simp [hne]
        rw [hcongr]
        exact ih pA pB hfst2 hnd

theorem filter_not_in_keys {α : Type} (I pA pB : List (String × α))
    (hfst : pA.map Prod.fst = I.map Prod.fst)
    (hnd : ((pA ++ pB).map Prod.fst).Nodup) :
    (pA ++ pB).filter (fun p => (dictGet I p.1).isNone) = pB := by
  rw [List.map_append] at hnd
  have hdisj : (pA.map Prod.fst).Disjoint (pB.map Prod.fst) :=
    ((List.nodup_append).mp hnd).2.2
  rw [List.filter_append]
  have h1 : pA.filter (fun p => (dictGet I p.1).isNone) = [] := by
    rw [List.filter_eq_nil_iff]
    intro p hp
    have hpmem : p.1 ∈ I.map Prod.fst := by
      rw [← hfst]; exact List.mem_map_of_mem Prod.fst hp
    have hsome : (dictGet I p.1).isSome = true := (dictGet_isSome_iff I p.1).mpr hpmem
    cases hd : dictGet I p.1 <;> simp_all
  have h2 : pB.filter (fun p => (dictGet I p.1).isNone) = pB := by
    rw [List.filter_eq_self]
    intro p hp
    have hpB : p.1 ∈ pB.map Prod.fst := List.mem_map_of_mem Prod.fst hp
    have hpnA : p.1 ∉ pA.map Prod.fst := fun hin => hdisj hin hpB
    have : dictGet I p.1 = none := by
      rw [dictGet_eq_none_iff, ← hfst]
      exact hpnA
    simp [this]
  rw [h1, h2, List.nil_append]

/-- If a dict's keys start with exactly the keys of `I` (in order) and are
distinct, then updating `I` with it reproduces it exactly. -/
theorem dictUpdate_extend {α : Type} (I props : List (String × α))
    (hkeys : props.map Prod.fst = I.map Prod.fst ++
      (props.map Prod.fst).drop I.length)
    (hnodup : (props.map Prod.fst).Nodup) :
    dictUpdate I props = props := by
  have hsplit : props.take I.length ++ props.drop I.length = props :=
    List.take_append_drop I.length props
  have hlen : I.length = (I.map Prod.fst).length := (List.length_map I Prod.fst).symm
  have hfstA : (props.take I.length).map Prod.fst = I.map Prod.fst := by
    rw [List.map_take, hkeys, hlen, List.take_left]
  have hndsplit : (((props.take I.length) ++ (props.drop I.length)).map Prod.fst).Nodup := by
    rw [hsplit]; exact hnodup
  rw [dictUpdate_eq_of_nodup props hnodup I]
  calc I.map (fun p => (p.1, (dictGet props p.1).getD p.2)) ++
        props.filter (fun p => (dictGet I p.1).isNone)
      = I.map (fun p => (p.1,
          (dictGet (props.take I.length ++ props.drop I.length) p.1).getD p.2)) ++
        (props.take I.length ++ props.drop I.length).filter
          (fun p => (dictGet I p.1).isNone) := by rw [hsplit]
    _ = props.take I.length ++ props.drop I.length := by
        rw [map_lookup_eq_left I _ _ hfstA hndsplit,
          filter_not_in_keys I _ _ hfstA hndsplit]
    _ = props := hsplit

theorem dictGet_of_mem_nodup {α : Type} (d : List (String × α)) (k : String) (v : α)
    (hmem : (k, v) ∈ d) (hnd : (d.map Prod.fst).Nodup) :
    dictGet d k = some v := by
  induction d with
  | nil => simp at hmem
  | cons p d ih =>
    simp only [List.map_cons, List.nodup_cons] at hnd
    rcases List.mem_cons.mp hmem with h | h
    · rw [← h, dictGet_cons]
      simp
    · have hne : p.1 ≠ k := fun he => hnd.1 (he ▸ List.mem_map_of_mem Prod.fst h)
      rw [dictGet_cons]
      simp only [hne, beq_iff_eq, if_false]
      exact ih h hnd.2

/-! ## Component model (`src/zeus/core/component.py`) -/

/-- `ComponentProperty`: declaration of one editable property of a variant. -/
structure ComponentProperty where
  name : String
  display_name : String
  property_type : String
  default_value : PValue
  description : String := ""
  options : List String := []
deriving DecidableEq, Repr

/-- `ComponentEvent`: declaration of one event a variant can emit. -/
structure ComponentEvent where
  name : String
  display_name : String
  description : String := ""
deriving DecidableEq, Repr

/-- The class-level metadata of a `BaseComponent` subclass: its
`component_type`, `display_name`, the `default_width`/`default_height`
class attributes (absent on `BaseComponent` itself, hence `Option`), and
the declared property and event schemas. -/
structure ComponentClass where
  component_type : String
  display_name : String
  category : String
  default_width : Option Int := none
  default_height : Option Int := none
  get_properties : List ComponentProperty
  get_events : List ComponentEvent := []
deriving DecidableEq, Repr

/-- The `for prop in self.get_properties(): self._properties[prop.name] =
prop.default_value` loop of `BaseComponent.__init__`. -/
def initProps (ps : List ComponentProperty) : List (String × PValue) :=
  ps.foldl (fun acc p => dictSet acc p.name p.default_value) []

/-- An instance of `BaseComponent` (the `_event_handlers` runtime field is
presentation-side and not modelled). -/
structure BaseComponent where
  cls : ComponentClass
  id : String
  x : Int
  y : Int
  width : Int
  height : Int
  parent_id : Option String := none
  children : List String := []
  props : List (String × PValue)
deriving DecidableEq, Repr

/-- `BaseComponent.__init__(x, y, width, height)`; `freshId` stands for the
generated `str(uuid4())`. -/
def BaseComponent.init (cls : ComponentClass) (freshId : String)
    (x y width height : Int) : BaseComponent :=
  { cls := cls, id := freshId, x := x, y := y, width := width, height := height,
    parent_id := none, children := [], props := initProps cls.get_properties }

/-- `get_property`: `self._properties.get(name)`; Python returns `None`
both for an absent key and for a stored `None`, which the `getD .null`
reproduces. -/
def BaseComponent.get_property (c : BaseComponent) (name : String) : PValue :=
  (dictGet c.props name).getD PValue.null

/-- `set_property`: `self._properties[name] = value`. -/
def BaseComponent.set_property (c : BaseComponent) (name : String) (value : PValue) :
    BaseComponent :=
  { c with props := dictSet c.props name value }

/-- The dictionary produced by `BaseComponent.to_dict` / consumed by
`BaseComponent.from_dict`.  Every field is optional because `from_dict`
accepts fragments with missing keys (`data.get(..., default)`). -/
structure ComponentDict where
  id : Option String := none
  type : Option String := none
  x : Option Int := none
  y : Option Int := none
  width : Option Int := none
  height : Option Int := none
  parent_id : Option (Option String) := none
  children : Option (List String) := none
  properties : Option (List (String × PValue)) := none
deriving DecidableEq, Repr

/-- `BaseComponent.to_dict`. -/
def BaseComponent.to_dict (c : BaseComponent) : ComponentDict :=
  { id := some c.id, type := some c.cls.component_type, x := some c.x,
    y := some c.y, width := some c.width, height := some c.height,
    parent_id := some c.parent_id, children := some c.children,
    properties := some c.props }

/-- `BaseComponent.from_dict(data)`: builds a fresh instance of the class
(with defaults `x=0, y=0, width=100, height=50`), then overwrites `id`,
`parent_id` and `children` from the fragment and updates `_properties`
with the fragment's properties. -/
def BaseComponent.from_dict (cls : ComponentClass) (freshId : String)
    (d : ComponentDict) : BaseComponent :=
  let c := BaseComponent.init cls freshId (d.x.getD 0) (d.y.getD 0)
    (d.width.getD 100) (d.height.getD 50)
  { c with
    id := d.id.getD c.id,
    parent_id := d.parent_id.getD none,
    children := d.children.getD [],
    props := dictUpdate c.props (d.properties.getD []) }

theorem initProps_eq_map (ps : List ComponentProperty)
    (hnd : (ps.map ComponentProperty.name).Nodup) :
    initProps ps = ps.map (fun p => (p.name, p.default_value)) := by
  have h1 : initProps ps = dictUpdate [] (ps.map (fun p => (p.name, p.default_value))) := by
    simp only [initProps, dictUpdate, List.foldl_map]
  have hnd' : ((ps.map (fun p => (p.name, p.default_value))).map Prod.fst).Nodup := by
    rw [List.map_map]
    exact hnd
  rw [h1, dictUpdate_eq_of_nodup _ hnd' []]
  simp [dictGet_nil]

theorem keys_initProps (ps : List ComponentProperty)
    (hnd : (ps.map ComponentProperty.name).Nodup) :
    (initProps ps).map Prod.fst = ps.map ComponentProperty.name := by
  rw [initProps_eq_map ps hnd, List.map_map]
  rfl

theorem get_initProps (ps : List ComponentProperty) (p : ComponentProperty)
    (hmem : p ∈ ps) (hnd : (ps.map ComponentProperty.name).Nodup) :
    dictGet (initProps ps) p.name = some p.default_value := by
  rw [initProps_eq_map ps hnd]
  apply dictGet_of_mem_nodup
  · exact List.mem_map_of_mem _ hmem
  · rw [List.map_map]
    exact hnd

/-! ## Built-in widget classes (`src/zeus/widgets/*.py`) -/

/-- `ButtonComponent` class metadata. -/
def ButtonComponent : ComponentClass :=
  { component_type := "button", display_name := "Button",
    category := "Form Controls", default_width := some 120,
    default_height := some 40,
    get_properties := [
      { name := "text", display_name := "Text", property_type := "string",
        default_value := .s "Button",
        description := "The text displayed on the button" },
      { name := "enabled", display_name := "Enabled", property_type := "bool",
        default_value := .b true,
        description := "Whether the button is interactive" },
      { name := "variant", display_name := "Variant", property_type := "enum",
        default_value := .s "primary", description := "Button style variant",
        options := ["primary", "secondary", "outline", "text"] },
      { name := "background_color", display_name := "Background",
        property_type := "color", default_value := .s "#0e639c",
        description := "Button background color" },
      { name := "text_color", display_name := "Text Color",
        property_type := "color", default_value := .s "#ffffff",
        description := "Button text color" }],
    get_events := [
      { name := "onClick", display_name := "On Click",
        description := "Triggered when the button is clicked" },
      { name := "onHover", display_name := "On Hover",
        description := "Triggered when the mouse hovers over the button" }] }

/-- `LabelComponent` class metadata. -/
def LabelComponent : ComponentClass :=
  { component_type := "label", display_name := "Label",
    category := "Form Controls", default_width := some 100,
    default_height := some 30,
    get_properties := [
      { name := "text", display_name := "Text", property_type := "string",
        default_value := .s "Label",
        description := "The text content of the label" },
      { name := "font_size", display_name := "Font Size", property_type := "int",
        default_value := .i 14, description := "Font size in pixels" },
      { name := "text_color", display_name := "Text Color",
        property_type := "color", default_value := .s "#cccccc",
        description := "Text color" },
      { name := "alignment", display_name := "Alignment", property_type := "enum",
        default_value := .s "left", description := "Text alignment",
        options := ["left", "center", "right"] },
      { name := "bold", display_name := "Bold", property_type := "bool",
        default_value := .b false, description := "Whether the text is bold" }] }

/-- `TextInputComponent` class metadata. -/
def TextInputComponent : ComponentClass :=
  { component_type := "text_input", display_name := "Text Input",
    category := "Form Controls", default_width := some 200,
    default_height := some 36,
    get_properties := [
      { name := "placeholder", display_name := "Placeholder",
        property_type := "string", default_value := .s "Enter text...",
        description := "Placeholder text when empty" },
      { name := "value", display_name := "Value", property_type := "string",
        default_value := .s "", description := "The current text value" },
      { name := "enabled", display_name := "Enabled", property_type := "bool",
        default_value := .b true, description := "Whether the input is editable" },
      { name := "password", display_name := "Password Mode",
        property_type := "bool", default_value := .b false,
        description := "Hide input as password" },
      { name := "max_length", display_name := "Max Length",
        property_type := "int", default_value := .i 100,
        description := "Maximum character length" },
      { name := "background_color", display_name := "Background",
        property_type := "color", default_value := .s "#3c3c3c",
        description := "Input background color" },
      { name := "text_color", display_name := "Text Color",
        property_type := "color", default_value := .s "#cccccc",
        description := "Input text color" }],
    get_events := [
      { name := "onChange", display_name := "On Change",
        description := "Triggered when the text changes" },
      { name := "onSubmit", display_name := "On Submit",
        description := "Triggered when Enter is pressed" }] }

/-- `CheckboxComponent` class metadata. -/
def CheckboxComponent : ComponentClass :=
  { component_type := "checkbox", display_name := "Checkbox",
    category := "Form Controls", default_width := some 150,
    default_height := some 30,
    get_properties := [
      { name := "label", display_name := "Label", property_type := "string",
        default_value := .s "Checkbox",
        description := "The label text next to the checkbox" },
      { name := "checked", display_name := "Checked", property_type := "bool",
        default_value := .b false,
        description := "Whether the checkbox is checked" },
      { name := "enabled", display_name := "Enabled", property_type := "bool",
        default_value := .b true,
        description := "Whether the checkbox is interactive" },
      { name := "text_color", display_name := "Text Color",
        property_type := "color", default_value := .s "#cccccc",
        description := "Label text color" }],
    get_events := [
      { name := "onChange", display_name := "On Change",
        description := "Triggered when the checkbox state changes" }] }

/-- `ContainerComponent` class metadata. -/
def ContainerComponent : ComponentClass :=
  { component_type := "container", display_name := "Container",
    category := "Layout", default_width := some 300, default_height := some 200,
    get_properties := [
      { name := "background_color", display_name := "Background",
        property_type := "color", default_value := .s "#2d2d2d",
        description := "Container background color" },
      { name := "border_width", display_name := "Border Width",
        property_type := "int", default_value := .i 1,
        description := "Border width in pixels" },
      { name := "border_color", display_name := "Border Color",
        property_type := "color", default_value := .s "#3c3c3c",
        description := "Border color" },
      { name := "border_radius", display_name := "Border Radius",
        property_type := "int", default_value := .i 4,
        description := "Border corner radius" },
      { name := "padding", display_name := "Padding", property_type := "int",
        default_value := .i 10, description := "Inner padding in pixels" },
      { name := "layout", display_name := "Layout", property_type := "enum",
        default_value := .s "vertical", description := "Child layout direction",
        options := ["vertical", "horizontal", "none"] }] }

/-- `ImageComponent` class metadata. -/
def ImageComponent : ComponentClass :=
  { component_type := "image", display_name := "Image", category := "Media",
    default_width := some 200, default_height := some 150,
    get_properties := [
      { name := "source", display_name := "Source", property_type := "string",
        default_value := .s "", description := "Image file path or URL" },
      { name := "alt_text", display_name := "Alt Text",
        property_type := "string", default_value := .s "Image",
        description := "Alternative text for accessibility" },
      { name := "fit", display_name := "Fit", property_type := "enum",
        default_value := .s "contain",
        description := "How the image fits in the container",
        options := ["contain", "cover", "fill", "none"] },
      { name := "border_radius", display_name := "Border Radius",
        property_type := "int", default_value := .i 0,
        description := "Corner radius for rounded images" }] }

/-! ## Component registry (`src/zeus/widgets/registry.py`) -/

/-- `COMPONENT_REGISTRY`, populated by the `@register_component` decorators
in the import order of `zeus/widgets/__init__.py`. -/
def COMPONENT_REGISTRY : List (String × ComponentClass) :=
  [("button", ButtonComponent), ("label", LabelComponent),
   ("text_input", TextInputComponent), ("checkbox", CheckboxComponent),
   ("container", ContainerComponent), ("image", ImageComponent)]

/-- `create_component(component_type, x, y, width, height)`: returns `None`
(embedded as `none`) when the type is not registered; otherwise builds an
instance, substituting `getattr(cls, 'default_width', 100)` /
`getattr(cls, 'default_height', 40)` for an unspecified width/height.
`freshId` stands for the `str(uuid4())` the constructor generates. -/
def create_component (component_type : String) (freshId : String)
    (x y : Int) (width height : Option Int) : Option BaseComponent :=
  match dictGet COMPONENT_REGISTRY component_type with
  | none => none
  | some cls =>
    let w := width.getD (cls.default_width.getD 100)
    let h := height.getD (cls.default_height.getD 40)
    some (BaseComponent.init cls freshId x y w h)

/-- `get_component_class(component_type)`. -/
def get_component_class (component_type : String) : Option ComponentClass :=
  dictGet COMPONENT_REGISTRY component_type

/-! ## Document model (`src/zeus/core/project.py`)

`Page.components` is a list of raw component dictionaries (`list[dict]` in
the source), passed through untouched by `Page.to_dict`/`Page.from_dict`. -/

/-- `Page` dataclass. -/
structure Page where
  id : String
  name : String
  components : List ComponentDict := []
  width : Int := 800
  height : Int := 600
deriving DecidableEq, Repr

/-- The dictionary produced by `Page.to_dict` / consumed by
`Page.from_dict`; `id` and `name` are accessed with `data[...]` (required),
the rest with `data.get(..., default)`. -/
structure PageDict where
  id : String
  name : String
  components : Option (List ComponentDict) := none
  width : Option Int := none
  height : Option Int := none
deriving DecidableEq, Repr

/-- `Page.to_dict`. -/
def Page.to_dict (p : Page) : PageDict :=
  { id := p.id, name := p.name, components := some p.components,
    width := some p.width, height := some p.height }

/-- `Page.from_dict`. -/
def Page.from_dict (d : PageDict) : Page :=
  { id := d.id, name := d.name, components := d.components.getD [],
    width := d.width.getD 800, height := d.height.getD 600 }

/-- `Project` dataclass (before `__post_init__` runs). -/
structure Project where
  name : String := "Untitled Project"
  description : String := ""
  version : String := "1.0.0"
  created_at : String
  modified_at : String
  pages : List Page
  assets : List String := []
  settings : List (String × PValue) := []
  file_path : Option String := none
deriving DecidableEq, Repr

/-- `Project.__post_init__`: if `pages` is empty, append a
`Page(id=str(uuid4()), name="Main Page")`; `freshPageId` stands for the
generated uuid. -/
def Project.postInit (freshPageId : String) (p : Project) : Project :=
  if p.pages.isEmpty then
    { p with pages := [{ id := freshPageId, name := "Main Page" }] }
  else p

/-- Constructing a `Project(...)`: the dataclass constructor immediately
followed by `__post_init__`. -/
def Project.make (freshPageId : String) (p : Project) : Project :=
  Project.postInit freshPageId p

/-- `Project.mark_modified`; `now` stands for
`datetime.now().isoformat()`. -/
def Project.mark_modified (now : String) (p : Project) : Project :=
  { p with modified_at := now }

/-- `Project.add_page(name)`; returns the project and the new page. -/
def Project.add_page (freshPageId now : String) (p : Project) (name : String) :
    Project × Page :=
  let page : Page := { id := freshPageId, name := name }
  (Project.mark_modified now { p with pages := p.pages ++ [page] }, page)

/-- The `for i, page in enumerate(self.pages): if page.id == page_id:
self.pages.pop(i); ...` loop of `Project.remove_page`: drop the first page
with the given id, reporting whether one was found. -/
def removeFirstPage (pages : List Page) (page_id : String) : List Page × Bool :=
  match pages with
  | [] => ([], false)
  | pg :: rest =>
    if pg.id == page_id then (rest, true)
    else
      let r := removeFirstPage rest page_id
      (pg :: r.1, r.2)

/-- `Project.remove_page(page_id)`: removes the first matching page (there
is no last-page check in the source) and marks the project modified,
returning `True`; returns `False` without change when the id is absent. -/
def Project.remove_page (now : String) (p : Project) (page_id : String) :
    Project × Bool :=
  let r := removeFirstPage p.pages page_id
  if r.2 then (Project.mark_modified now { p with pages := r.1 }, true)
  else (p, false)

/-- `Project.get_page(page_id)`. -/
def Project.get_page (p : Project) (page_id : String) : Option Page :=
  p.pages.find? (fun pg => pg.id == page_id)

/-- The dictionary produced by `Project.to_dict` / consumed by
`Project.from_dict` (all keys read with `data.get(..., default)`). -/
structure ProjectDict where
  name : Option String := none
  description : Option String := none
  version : Option String := none
  created_at : Option String := none
  modified_at : Option String := none
  pages : Option (List PageDict) := none
  assets : Option (List String) := none
  settings : Option (List (String × PValue)) := none
deriving DecidableEq, Repr

/-- `Project.to_dict` (does not serialize `file_path`). -/
def Project.to_dict (p : Project) : ProjectDict :=
  { name := some p.name, description := some p.description,
    version := some p.version, created_at := some p.created_at,
    modified_at := some p.modified_at,
    pages := some (p.pages.map Page.to_dict), assets := some p.assets,
    settings := some p.settings }

/-- `Project.from_dict(data, file_path)`: reads every field with a
default (`now` stands for the `datetime.now().isoformat()` defaults) and
runs the constructor, hence `__post_init__`. -/
def Project.from_dict (freshPageId now : String) (d : ProjectDict)
    (file_path : Option String) : Project :=
  Project.make freshPageId
    { name := d.name.getD "Untitled Project",
      description := d.description.getD "",
      version := d.version.getD "1.0.0",
      created_at := d.created_at.getD now,
      modified_at := d.modified_at.getD now,
      pages := (d.pages.getD []).map Page.from_dict,
      assets := d.assets.getD [],
      settings := d.settings.getD [],
      file_path := file_path }

/-! ## The page-deletion guard of the UI layer
(`src/zeus/ui/explorer.py`, `PageExplorer._delete_page`) -/

/-- `_delete_page(page_id)`: only calls `remove_page` when the project has
more than one page, and repoints `current_page_id` at `pages[0]` when the
current page was deleted. -/
def deletePageGuarded (now : String) (p : Project) (current_page_id : Option String)
    (page_id : String) : Project × Option String :=
  if p.pages.length > 1 then
    let p' := (Project.remove_page now p page_id).1
    let cur' := if current_page_id = some page_id then
        (p'.pages.head?).map Page.id
      else current_page_id
    (p', cur')
  else (p, current_page_id)

/-! ## Command engine (`src/zeus/core/commands.py`)

`CommandStack` stores command objects; their behaviour is given by a
semantics record: `execF` is the command's `execute()` acting on a document
state `σ` (`none` embeds the call raising an exception), `undoF` its
`undo()`.  The base class's `redo()` just calls `execute()` again, and no
concrete command overrides `redo`, so redo is interpreted by `execF`. -/

/-- The interpretation of a command type `α` over document states `σ`. -/
structure CmdSem (α σ : Type) where
  execF : α → σ → Option σ
  undoF : α → σ → σ

/-- `CommandStack` state: Python lists used as stacks (top at the end). -/
structure CommandStack (α : Type) where
  undo_stack : List α := []
  redo_stack : List α := []
  max_size : Nat := 100
  is_executing : Bool := false
deriving DecidableEq, Repr

/-- `CommandStack.execute(command)`.  Returns the new stack, the new
document state, and whether the command's `execute()` raised (in which
case nothing is pushed, the stacks are untouched, and the `finally` block
has reset `_is_executing`).  The `while len(undo) > max: pop(0)` loop is
the `drop (length - max)`. -/
def CommandStack.execute {α σ : Type} (sem : CmdSem α σ) (cs : CommandStack α)
    (c : α) (s : σ) : CommandStack α × σ × Bool :=
  if cs.is_executing then (cs, s, false)
  else
    match sem.execF c s with
    | some s' =>
      let u := cs.undo_stack ++ [c]
      ({ cs with
          undo_stack := u.drop (u.length - cs.max_size),
          redo_stack := [],
          is_executing := false }, s', false)
    | none => ({ cs with is_executing := false }, s, true)

/-- `CommandStack.undo()`: pop the most recent command, run its `undo()`,
push it onto the redo stack; `None` (no change) on an empty stack. -/
def CommandStack.undo {α σ : Type} (sem : CmdSem α σ) (cs : CommandStack α)
    (s : σ) : CommandStack α × σ × Option α :=
  match cs.undo_stack.getLast? with
  | none => (cs, s, none)
  | some c =>
    ({ cs with
        undo_stack := cs.undo_stack.dropLast,
        redo_stack := cs.redo_stack ++ [c] }, sem.undoF c s, some c)

/-- `CommandStack.redo()`: pop the most recently undone command, run its
`redo()` (the default `redo` re-runs `execute`), push it back onto
the undo stack; `None` on an empty redo stack.  If the re-run raises, the
command has already been popped and the push is never reached. -/
def CommandStack.redo {α σ : Type} (sem : CmdSem α σ) (cs : CommandStack α)
    (s : σ) : CommandStack α × σ × Option α :=
  match cs.redo_stack.getLast? with
  | none => (cs, s, none)
  | some c =>
    match sem.execF c s with
    | some s' =>
      ({ cs with
          undo_stack := cs.undo_stack ++ [c],
          redo_stack := cs.redo_stack.dropLast }, s', some c)
    | none => ({ cs with redo_stack := cs.redo_stack.dropLast }, s, none)

/-- `CommandStack.can_undo()`. -/
def CommandStack.can_undo {α : Type} (cs : CommandStack α) : Bool :=
  cs.undo_stack.length > 0

/-- `CommandStack.can_redo()`. -/
def CommandStack.can_redo {α : Type} (cs : CommandStack α) : Bool :=
  cs.redo_stack.length > 0

/-- `CommandStack.clear()`. -/
def CommandStack.clear {α : Type} (cs : CommandStack α) : CommandStack α :=
  { cs with undo_stack := [], redo_stack := [] }

/-! ### The concrete document-editing commands

`MoveComponentCommand`, `ResizeComponentCommand` and
`ChangePropertyCommand` hold a reference to a live component plus the
captured old/new values of exactly the fields they change.  The shared
document state is the table of live components, keyed by id (the Python
commands hold the object itself; since ids identify the live objects,
id-keyed updates are the same mutation). -/

/-- The table of live components (`id -> component`). -/
abbrev Store : Type := List (String × BaseComponent)

/-- Mutating the one live component with the given id. -/
def updStore (s : Store) (cid : String) (f : BaseComponent → BaseComponent) :
    Store :=
  (s : List (String × BaseComponent)).map
    (fun p => if p.1 = cid then (p.1, f p.2) else p)

/-- The three field-editing commands of `src/zeus/core/commands.py`, with
the captured old and new values they store. -/
inductive EditCmd where
  | move (cid : String) (old_x old_y new_x new_y : Int)
  | resize (cid : String) (old_width old_height new_width new_height : Int)
  | changeProp (cid : String) (property_name : String) (old_value new_value : PValue)
deriving DecidableEq, Repr

/-- `execute()` of the three commands: unconditional assignment of the
captured new values. -/
def EditCmd.execF : EditCmd → Store → Store
  | .move cid _ _ nx ny, s =>
    updStore s cid (fun c => { c with x := nx, y := ny })
  | .resize cid _ _ nw nh, s =>
    updStore s cid (fun c => { c with width := nw, height := nh })
  | .changeProp cid name _ nv, s =>
    updStore s cid (fun c => c.set_property name nv)

/-- `undo()` of the three commands: unconditional assignment of the
captured old values. -/
def EditCmd.undoF : EditCmd → Store → Store
  | .move cid ox oy _ _, s =>
    updStore s cid (fun c => { c with x := ox, y := oy })
  | .resize cid ow oh _ _, s =>
    updStore s cid (fun c => { c with width := ow, height := oh })
  | .changeProp cid name ov _, s =>
    updStore s cid (fun c => c.set_property name ov)

/-- The semantics of the field-editing commands (their `execute` never
raises). -/
def editSem : CmdSem EditCmd Store :=
  { execF := fun c s => some (c.execF s), undoF := EditCmd.undoF }

/-! ## Selection state (`src/zeus/core/state.py`) and the canvas component
table (`src/zeus/ui/canvas.py`, `CanvasArea`) -/

/-- `SelectionState.select(component_id)`: replace with a singleton. -/
def SelectionState.select (sel : List String) (component_id : String) :
    List String :=
  [component_id]

/-- `SelectionState.add_to_selection(component_id)`: idempotent append. -/
def SelectionState.add_to_selection (sel : List String) (component_id : String) :
    List String :=
  if component_id ∈ sel then sel else sel ++ [component_id]

/-- `SelectionState.remove_from_selection(component_id)`. -/
def SelectionState.remove_from_selection (sel : List String)
    (component_id : String) : List String :=
  if component_id ∈ sel then sel.erase component_id else sel

/-- The state a `CanvasArea` operates on: its `_components` wrapper table
and the selection list of the shared `AppState`. -/
structure CanvasState where
  components : List (String × BaseComponent) := []
  selection : List String := []
deriving DecidableEq, Repr

/-- `CanvasArea.add_component(component)`:
`self._components[component.id] = wrapper`. -/
def CanvasState.add_component (cv : CanvasState) (c : BaseComponent) :
    CanvasState :=
  { cv with components := dictSet cv.components c.id c }

/-- `CanvasArea.remove_component(component_id)`: pops the wrapper if
present; the selection is not touched. -/
def CanvasState.remove_component (cv : CanvasState) (component_id : String) :
    CanvasState :=
  if component_id ∈ cv.components.map Prod.fst then
    { cv with components := dictRemove cv.components component_id }
  else cv

/-- `AppState.select_component(component_id, add_to_selection)`: no
existence check is performed on `component_id`. -/
def CanvasState.select_component (cv : CanvasState) (component_id : String)
    (add_to_selection : Bool) : CanvasState :=
  if add_to_selection then
    { cv with selection := SelectionState.add_to_selection cv.selection component_id }
  else
    { cv with selection := SelectionState.select cv.selection component_id }

/-- `CanvasArea.delete_selected()`: remove every selected component, then
`AppState.clear_selection()`. -/
def CanvasState.delete_selected (cv : CanvasState) : CanvasState :=
  let cv' := cv.selection.foldl (fun acc cid => acc.remove_component cid) cv
  { cv' with selection := [] }

/-- The selection-consistency invariant stated by the spec: every selected
id denotes a component of the canvas table. -/
def SelectionValid (cv : CanvasState) : Prop :=
  ∀ cid ∈ cv.selection, cid ∈ cv.components.map Prod.fst

/-! ## Grid snapping (`src/zeus/utils/helpers.py`) -/

/-- Python 3 `round(q)` for an exact rational: round half to even. -/
def pyRound (q : ℚ) : ℤ :=
  let n := ⌊q⌋
  if q - n < 1/2 then n
  else if 1/2 < q - n then n + 1
  else if n % 2 = 0 then n else n + 1

/-- `snap_to_grid(value, grid_size) = round(value / grid_size) * grid_size`
(exact-rational reading of the float division). -/
def snap_to_grid (value grid_size : ℤ) : ℤ :=
  pyRound ((value : ℚ) / (grid_size : ℚ)) * grid_size

/-! ## Schema validator (`src/zeus/models/schema.py`) -/

/-- A JSON-like Python value, as handed to `validate_project`. -/
inductive JValue where
  | str (s : String)
  | int (n : Int)
  | bool (b : Bool)
  | null
  | arr (items : List JValue)
  | obj (fields : List (String × JValue))

/-- `isinstance(v, dict)`. -/
def JValue.isDict : JValue → Bool
  | .obj _ => true
  | _ => false

/-- The page loop of `validate_project`, carrying the `enumerate` index. -/
def validatePages : List JValue → Nat → Bool × Option String
  | [], _ => (true, none)
  | pg :: rest, i =>
    match pg with
    | .obj fields =>
      if (dictGet fields "id").isSome = false then
        (false, some ("Page " ++ toString i ++ " must have an id"))
      else if (dictGet fields "name").isSome = false then
        (false, some ("Page " ++ toString i ++ " must have a name"))
      else validatePages rest (i + 1)
    | _ => (false, some ("Page " ++ toString i ++ " must be a dictionary"))

/-- `validate_project(data)`: the hand-rolled structural checks, in source
order and short-circuiting at the first failure.  A total function: no
input makes it raise. -/
def validate_project (data : JValue) : Bool × Option String :=
  match data with
  | .obj fields =>
    if (dictGet fields "name").isSome = false then
      (false, some "Project must have a name")
    else if (dictGet fields "version").isSome = false then
      (false, some "Project must have a version")
    else
      match dictGet fields "pages" with
      | some (.arr pages) => validatePages pages 0
      | _ => (false, some "Project must have a pages array")
  | _ => (false, some "Project must be a dictionary")

/-! ## Theorems about the embedded code -/

theorem pyRound_intCast (k : ℤ) : pyRound (k : ℚ) = k := by
  simp [pyRound]

theorem abs_pyRound_sub (q : ℚ) : |(pyRound q : ℚ) - q| ≤ 1/2 := by
  have hfl : (⌊q⌋ : ℚ) ≤ q := Int.floor_le q
  have hfu : q < ⌊q⌋ + 1 := Int.lt_floor_add_one q
  unfold pyRound
  by_cases h1 : q - ⌊q⌋ < 1/2
  · simp only [h1, if_true]
    rw [abs_sub_comm, abs_of_nonneg (by linarith)]
    linarith
  · simp only [h1, if_false]
    by_cases h2 : 1/2 < q - ⌊q⌋
    · simp only [h2, if_true]
      rw [abs_of_nonneg (by push_cast; linarith)]
      push_cast
      linarith
    · have heq : q - ⌊q⌋ = 1/2 := le_antisymm (not_lt.mp h2) (not_lt.mp h1)
      by_cases h3 : ⌊q⌋ % 2 = 0
      · simp only [h2, if_false, h3, if_true]
        rw [abs_sub_comm, abs_of_nonneg (by linarith)]
        linarith
      · simp only [h2, if_false, h3, if_false]
        rw [abs_of_nonneg (by push_cast; linarith)]
        push_cast
        linarith

/-- C9. Grid snap definition and idempotence: for every integer coordinate
`x` and grid size `g ∈ [5, 50]`, `snap_to_grid x g` is literally
`round(x / g) * g`, it is a nearest multiple of `g` to `x`, and snapping is
idempotent: `snap_to_grid (snap_to_grid x g) g = snap_to_grid x g`. -/
theorem C9_snap_definition_and_idempotence (x g : ℤ) (hg5 : 5 ≤ g) (hg50 : g ≤ 50) :
    snap_to_grid x g = pyRound ((x : ℚ) / (g : ℚ)) * g ∧
    (∀ m : ℤ, |snap_to_grid x g - x| ≤ |m * g - x|) ∧
    snap_to_grid (snap_to_grid x g) g = snap_to_grid x g := by
  have hg0 : (0 : ℤ) < g := by omega
  have hgQ : (0 : ℚ) < (g : ℚ) := by exact_mod_cast hg0
  have hgne : (g : ℚ) ≠ 0 := ne_of_gt hgQ
  refine ⟨rfl, ?_, ?_⟩
  · intro m
    set k := pyRound ((x : ℚ) / (g : ℚ)) with hk
    have habs : |(k : ℚ) - (x : ℚ) / (g : ℚ)| ≤ 1/2 := abs_pyRound_sub _
    have key : |(k * g - x : ℚ)| ≤ |((m : ℚ) * g - x)| := by
      by_cases hmk : m = k
      · subst hmk; push_cast; exact le_refl _
      · have hdist : (1 : ℚ) ≤ |(m : ℚ) - (k : ℚ)| := by
          have : (m : ℚ) - (k : ℚ) = ((m - k : ℤ) : ℚ) := by push_cast; ring
          rw [this]
          rw [← Int.cast_abs]
          have : (1 : ℤ) ≤ |m - k| := by
            rcases lt_trichotomy m k with h | h | h
            · rw [abs_of_neg (by omega)]; omega
            · exact absurd h hmk
            · rw [abs_of_pos (by omega)]; omega
          exact_mod_cast this
        have hm : (1 : ℚ)/2 ≤ |(m : ℚ) - (x : ℚ) / (g : ℚ)| := by
          have htri : |(m : ℚ) - (k : ℚ)| ≤
              |(m : ℚ) - (x : ℚ) / (g : ℚ)| + |(k : ℚ) - (x : ℚ) / (g : ℚ)| := by
            have := abs_sub_abs_le_abs_sub ((m : ℚ) - (x : ℚ) / (g : ℚ))
              ((m : ℚ) - (k : ℚ))
            calc |(m : ℚ) - (k : ℚ)|
                = |((m : ℚ) - (x : ℚ) / (g : ℚ)) - ((k : ℚ) - (x : ℚ) / (g : ℚ))| := by
                  ring_nf
              _ ≤ |(m : ℚ) - (x : ℚ) / (g : ℚ)| + |(k : ℚ) - (x : ℚ) / (g : ℚ)| :=
                  abs_sub _ _
          linarith
        have hksub : (k : ℚ) * g - x = ((k : ℚ) - (x : ℚ) / (g : ℚ)) * g := by
          field_simp
        have hmsub : (m : ℚ) * g - x = ((m : ℚ) - (x : ℚ) / (g : ℚ)) * g := by
          field_simp
        rw [hksub, hmsub, abs_mul, abs_mul, abs_of_pos hgQ]
        have h1 : |(k : ℚ) - (x : ℚ) / (g : ℚ)| ≤ |(m : ℚ) - (x : ℚ) / (g : ℚ)| := by
          linarith
        exact mul_le_mul_of_nonneg_right h1 (le_of_lt hgQ)
    have lhs : snap_to_grid x g = k * g := rfl
    rw [lhs]
    have : ((|k * g - x| : ℤ) : ℚ) ≤ ((|m * g - x| : ℤ) : ℚ) := by
      rw [Int.cast_abs, Int.cast_abs]
      push_cast
      push_cast at key
      exact key
    exact_mod_cast this
  · show pyRound ((((pyRound ((x : ℚ) / (g : ℚ)) * g : ℤ)) : ℚ) / (g : ℚ)) * g
      = pyRound ((x : ℚ) / (g : ℚ)) * g
    have hdiv : (((pyRound ((x : ℚ) / (g : ℚ)) * g : ℤ)) : ℚ) / (g : ℚ)
        = (pyRound ((x : ℚ) / (g : ℚ)) : ℚ) := by
      push_cast
      field_simp
    rw [hdiv, pyRound_intCast]

/-- Witness for C9 at `x = 23`, `g = 10` (and `m = 3` for the
nearest-multiple part): the snapped value is `20`. -/
theorem C9_witness :
    (5 : ℤ) ≤ 10 ∧ (10 : ℤ) ≤ 50 ∧ snap_to_grid 23 10 = 20 ∧
    |snap_to_grid 23 10 - 23| ≤ |(3 : ℤ) * 10 - 23| ∧
    snap_to_grid (snap_to_grid 23 10) 10 = snap_to_grid 23 10 := by
  have h := C9_snap_definition_and_idempotence 23 10 (by decide) (by decide)
  refine ⟨by decide, by decide, ?_, h.2.1 3, h.2.2⟩
  show pyRound ((23 : ℚ) / (10 : ℚ)) * 10 = 20
  norm_num [pyRound]

theorem validatePages_ok_iff (l : List JValue) : ∀ i : Nat,
    ((validatePages l i).1 = true ↔
      ∀ pg ∈ l, ∃ pf, pg = JValue.obj pf ∧ (dictGet pf "id").isSome = true ∧
        (dictGet pf "name").isSome = true) ∧
    ((validatePages l i).2 = none ↔ (validatePages l i).1 = true) := by
  induction l with
  | nil => intro i; simp [validatePages]
  | cons pg rest ih =>
    intro i
    cases pg with
    | obj pf =>
      by_cases hid : (dictGet pf "id").isSome = false
      · constructor
        · simp [validatePages, hid]
        · simp [validatePages, hid]
      · have hid' : (dictGet pf "id").isSome = true := by
          cases hval : (dictGet pf "id").isSome <;> simp_all
        by_cases hname : (dictGet pf "name").isSome = false
        · constructor
          · simp [validatePages, hid', hname]
          · simp [validatePages, hid', hname]
        · have hname' : (dictGet pf "name").isSome = true := by
            cases hval : (dictGet pf "name").isSome <;> simp_all
          have hstep : validatePages (JValue.obj pf :: rest) i =
              validatePages rest (i + 1) := by
            simp [validatePages, hid', hname']
          rw [hstep]
          constructor
          · rw [(ih (i + 1)).1]
            constructor
            · intro h
              intro q hq
              rcases List.mem_cons.mp hq with hq | hq
              · exact ⟨pf, hq, hid', hname'⟩
              · exact h q hq
            · intro h q hq
              exact h q (List.mem_cons_of_mem _ hq)
          · exact (ih (i + 1)).2
    | str v =>
      constructor
      · simp only [validatePages]
        constructor
        · intro h; simp at h
        · intro h
          exact absurd ((h (JValue.str v) (List.mem_cons_self _ _)).choose_spec.1)
            (by intro hc; cases hc)
      · simp [validatePages]
    | int v =>
      constructor
      · simp only [validatePages]
        constructor
        · intro h; simp at h
        · intro h
          exact absurd ((h (JValue.int v) (List.mem_cons_self _ _)).choose_spec.1)
            (by intro hc; cases hc)
      · simp [validatePages]
    | bool v =>
      constructor
      · simp only [validatePages]
        constructor
        · intro h; simp at h
        · intro h
          exact absurd ((h (JValue.bool v) (List.mem_cons_self _ _)).choose_spec.1)
            (by intro hc; cases hc)
      · simp [validatePages]
    | null =>
      constructor
      · simp only [validatePages]
        constructor
        · intro h; simp at h
        · intro h
          exact absurd ((h JValue.null (List.mem_cons_self _ _)).choose_spec.1)
            (by intro hc; cases hc)
      · simp [validatePages]
    | arr v =>
      constructor
      · simp only [validatePages]
        constructor
        · intro h; simp at h
        · intro h
          exact absurd ((h (JValue.arr v) (List.mem_cons_self _ _)).choose_spec.1)
            (by intro hc; cases hc)
      · simp [validatePages]

/-- C8. Schema validator contract: `validate_project` is a pure total
function (totality is by construction of the embedding) that checks, in
order and stopping at the first failure, that the document is a dict, has
a `name`, has a `version`, has a `pages` list, and that every page is a
dict with an `id` and a `name`; it returns `(True, None)` exactly on
success and otherwise the first failing reason as a human-readable string
(so the ok flag and the absence of an error message coincide). -/
theorem C8_validate_project_contract :
    (∀ data : JValue, data.isDict = false →
      validate_project data = (false, some "Project must be a dictionary")) ∧
    (∀ fields, (dictGet fields "name").isSome = false →
      validate_project (JValue.obj fields) =
        (false, some "Project must have a name")) ∧
    (∀ fields, (dictGet fields "name").isSome = true →
      (dictGet fields "version").isSome = false →
      validate_project (JValue.obj fields) =
        (false, some "Project must have a version")) ∧
    (∀ fields, (dictGet fields "name").isSome = true →
      (dictGet fields "version").isSome = true →
      (∀ l, dictGet fields "pages" ≠ some (JValue.arr l)) →
      validate_project (JValue.obj fields) =
        (false, some "Project must have a pages array")) ∧
    (∀ fields pages, (dictGet fields "name").isSome = true →
      (dictGet fields "version").isSome = true →
      dictGet fields "pages" = some (JValue.arr pages) →
      validate_project (JValue.obj fields) = validatePages pages 0 ∧
      (validate_project (JValue.obj fields) = (true, none) ↔
        ∀ pg ∈ pages, ∃ pf, pg = JValue.obj pf ∧
          (dictGet pf "id").isSome = true ∧
          (dictGet pf "name").isSome = true)) ∧
    (∀ data : JValue,
      (validate_project data).1 = true ↔ (validate_project data).2 = none) := by
  have hpages := validatePages_ok_iff
  refine ⟨?_, ?_, ?_, ?_, ?_, ?_⟩
  · intro data hd
    cases data <;> simp_all [validate_project, JValue.isDict]
  · intro fields hname
    simp [validate_project, hname]
  · intro fields hname hver
    simp [validate_project, hname, hver]
  · intro fields hname hver hpg
    cases hget : dictGet fields "pages" with
    | none => simp [validate_project, hname, hver, hget]
    | some v =>
      cases v with
      | arr l => exact absurd hget (hpg l)
      | str v => simp [validate_project, hname, hver, hget]
      | int v => simp [validate_project, hname, hver, hget]
      | bool v => simp [validate_project, hname, hver, hget]
      | null => simp [validate_project, hname, hver, hget]
      | obj v => simp [validate_project, hname, hver, hget]
  · intro fields pages hname hver hget
    have heq : validate_project (JValue.obj fields) = validatePages pages 0 := by
      simp [validate_project, hname, hver, hget]
    refine ⟨heq, ?_⟩
    rw [heq]
    constructor
    · intro h
      exact ((hpages pages 0).1).mp (by rw [h])
    · intro h
      have h1 : (validatePages pages 0).1 = true := ((hpages pages 0).1).mpr h
      have h2 : (validatePages pages 0).2 = none := ((hpages pages 0).2).mpr h1
      cases hv : validatePages pages 0
      rw [hv] at h1 h2
      simp_all
  · intro data
    cases data with
    | obj fields =>
      by_cases hname : (dictGet fields "name").isSome = true
      · by_cases hver : (dictGet fields "version").isSome = true
        · cases hget : dictGet fields "pages" with
          | none => simp [validate_project, hname, hver, hget]
          | some v =>
            cases v with
            | arr l =>
              have heq : validate_project (JValue.obj fields) = validatePages l 0 := by
                simp [validate_project, hname, hver, hget]
              rw [heq]
              exact ((hpages l 0).2).symm
            | str v => simp [validate_project, hname, hver, hget]
            | int v => simp [validate_project, hname, hver, hget]
            | bool v => simp [validate_project, hname, hver, hget]
            | null => simp [validate_project, hname, hver, hget]
            | obj v => simp [validate_project, hname, hver, hget]
        · have hver' : (dictGet fields "version").isSome = false := by
            cases hv : (dictGet fields "version").isSome <;> simp_all
          simp [validate_project, hname, hver']
      · have hname' : (dictGet fields "name").isSome = false := by
          cases hv : (dictGet fields "name").isSome <;> simp_all
        simp [validate_project, hname']
    | str v => simp [validate_project]
    | int v => simp [validate_project]
    | bool v => simp [validate_project]
    | null => simp [validate_project]
    | arr v => simp [validate_project]

/-- Witness for C8: a well-formed two-page document validates to
`(True, None)`; a document missing `version` reports exactly that; a
non-dict input reports "Project must be a dictionary". -/
theorem C8_witness :
    validate_project (JValue.obj [("name", .str "demo"), ("version", .str "1.0.0"),
      ("pages", .arr [JValue.obj [("id", .str "p1"), ("name", .str "Main Page")],
        JValue.obj [("id", .str "p2"), ("name", .str "Second")]])]) = (true, none) ∧
    validate_project (JValue.obj [("name", .str "demo")]) =
      (false, some "Project must have a version") ∧
    validate_project (JValue.int 3) =
      (false, some "Project must be a dictionary") := by
  have h := C8_validate_project_contract
  refine ⟨?_, ?_, ?_⟩
  · refine ((h.2.2.2.2.1
      [("name", JValue.str "demo"), ("version", JValue.str "1.0.0"),
        ("pages", JValue.arr
          [JValue.obj [("id", JValue.str "p1"), ("name", JValue.str "Main Page")],
            JValue.obj [("id", JValue.str "p2"), ("name", JValue.str "Second")]])]
      [JValue.obj [("id", JValue.str "p1"), ("name", JValue.str "Main Page")],
        JValue.obj [("id", JValue.str "p2"), ("name", JValue.str "Second")]]
      rfl rfl rfl).2).mpr ?_
    · intro pg hpg
      rcases List.mem_cons.mp hpg with hpg | hpg
      · exact ⟨[("id", JValue.str "p1"), ("name", JValue.str "Main Page")], hpg, rfl, rfl⟩
      · rcases List.mem_cons.mp hpg with hpg | hpg
        · exact ⟨[("id", JValue.str "p2"), ("name", JValue.str "Second")], hpg, rfl, rfl⟩
        · simp at hpg
  · exact h.2.2.1 [("name", JValue.str "demo")] rfl rfl
  · exact h.1 (JValue.int 3) rfl

theorem removeFirstPage_not_found (pages : List Page) (pid : String)
    (h : ∀ pg ∈ pages, pg.id ≠ pid) : removeFirstPage pages pid = (pages, false) := by
  induction pages with
  | nil => rfl
  | cons pg rest ih =>
    have hpg : pg.id ≠ pid := h pg (List.mem_cons_self _ _)
    simp only [removeFirstPage, beq_iff_eq, hpg, if_false]
    rw [ih (fun q hq => h q (List.mem_cons_of_mem _ hq))]

theorem removeFirstPage_found (pages : List Page) (pid : String)
    (h : ∃ pg ∈ pages, pg.id = pid) :
    (removeFirstPage pages pid).2 = true ∧
    (removeFirstPage pages pid).1.length + 1 = pages.length := by
  induction pages with
  | nil => simp at h
  | cons pg rest ih =>
    by_cases hpg : pg.id = pid
    · simp [removeFirstPage, hpg]
    · obtain ⟨q, hq, hqid⟩ := h
      rcases List.mem_cons.mp hq with hq | hq
      · exact absurd (hq ▸ hqid) hpg
      · have := ih ⟨q, hq, hqid⟩
        simp only [removeFirstPage, beq_iff_eq, hpg, if_false]
        simp only [List.length_cons]
        exact ⟨this.1, by omega⟩

theorem removeFirstPage_length (pages : List Page) (pid : String) :
    pages.length - 1 ≤ (removeFirstPage pages pid).1.length ∧
    (removeFirstPage pages pid).1.length ≤ pages.length := by
  induction pages with
  | nil => simp [removeFirstPage]
  | cons pg rest ih =>
    by_cases hpg : pg.id = pid
    · simp [removeFirstPage, hpg]
    · simp only [removeFirstPage, beq_iff_eq, hpg, if_false, List.length_cons]
      omega

/-- A sample project holding a single page, for exercising `remove_page`. -/
def projOnePage : Project :=
  { created_at := "t0", modified_at := "t0",
    pages := [{ id := "p1", name := "Main Page" }] }

/-- A sample project holding two pages. -/
def projTwoPages : Project :=
  { created_at := "t0", modified_at := "t0",
    pages := [{ id := "p1", name := "Main Page" },
              { id := "p2", name := "Second" }] }

/-- C1 counterexample: on a project whose only page is `p1`,
`remove_page("p1")` succeeds (returns `True`), marks the project modified,
and leaves the project with zero pages — there is no `LastPageError` and
the removal is not refused. -/
theorem C1_counterexample :
    (Project.remove_page "t1" projOnePage "p1").2 = true ∧
    (Project.remove_page "t1" projOnePage "p1").1.pages = [] := by
  constructor <;> rfl

/-- C1 (amended). `Project.remove_page` performs no last-page check: when
the id is absent it is a no-op returning `False`; when a page with the id
exists — even the only remaining page — it removes exactly one page and
returns `True`.  The ≥1-page protection is enforced only by the UI caller
(`PageExplorer._delete_page`), which refuses to act unless the project has
more than one page and therefore never leaves a project with zero pages. -/
theorem C1_remove_page_amended :
    (∀ (now : String) (p : Project) (pid : String),
      (∀ pg ∈ p.pages, pg.id ≠ pid) →
      Project.remove_page now p pid = (p, false)) ∧
    (∀ (now : String) (p : Project) (pid : String),
      (∃ pg ∈ p.pages, pg.id = pid) →
      (Project.remove_page now p pid).2 = true ∧
      (Project.remove_page now p pid).1.pages.length + 1 = p.pages.length ∧
      (Project.remove_page now p pid).1.modified_at = now) ∧
    (∀ (now : String) (p : Project) (cur : Option String) (pid : String),
      p.pages ≠ [] → (deletePageGuarded now p cur pid).1.pages ≠ []) := by
  refine ⟨?_, ?_, ?_⟩
  · intro now p pid h
    simp [Project.remove_page, removeFirstPage_not_found p.pages pid h]
  · intro now p pid h
    obtain ⟨h2, hlen⟩ := removeFirstPage_found p.pages pid h
    simp [Project.remove_page, h2, Project.mark_modified]
    omega
  · intro now p cur pid hne
    unfold deletePageGuarded
    by_cases hlen : p.pages.length > 1
    · simp only [hlen, if_true]
      have hrf := removeFirstPage_length p.pages pid
      intro hc
      by_cases hfound : (removeFirstPage p.pages pid).2
      · have : (Project.remove_page now p pid).1.pages =
            (removeFirstPage p.pages pid).1 := by
          simp [Project.remove_page, hfound, Project.mark_modified]
        rw [this] at hc
        rw [hc] at hrf
        simp at hrf
        omega
      · have : (Project.remove_page now p pid).1.pages = p.pages := by
          simp [Project.remove_page, hfound]
        rw [this] at hc
        exact hne hc
    · simp only [hlen, if_false]
      exact hne

/-- Witness for C1's amended theorem: a two-page project; removing an
absent id is a no-op returning `False`; removing `p2` succeeds and leaves
one page; the guarded UI deletion leaves the pages nonempty. -/
theorem C1_witness :
    (∀ pg ∈ projTwoPages.pages, pg.id ≠ "zz") ∧
    Project.remove_page "t1" projTwoPages "zz" = (projTwoPages, false) ∧
    (Project.remove_page "t1" projTwoPages "p2").2 = true ∧
    (deletePageGuarded "t1" projTwoPages (some "p2") "p2").1.pages ≠ [] := by
  have h := C1_remove_page_amended
  refine ⟨by decide, ?_, ?_, ?_⟩
  · exact h.1 "t1" projTwoPages "zz" (by decide)
  · exact (h.2.1 "t1" projTwoPages "p2"
      ⟨{ id := "p2", name := "Second" }, by decide, rfl⟩).1
  · exact h.2.2 "t1" projTwoPages (some "p2") "p2" (by decide)

/-- C10. A `Project` constructed with an empty pages sequence — including
one deserialized from a document whose `pages` array is empty or absent —
gets exactly one page named "Main Page" (with the freshly generated id and
the `Page` dataclass defaults) from `__post_init__`, and no constructed or
deserialized project ever has zero pages. -/
theorem C10_post_init_main_page :
    (∀ (freshPageId : String) (p : Project), p.pages = [] →
      (Project.make freshPageId p).pages =
        [{ id := freshPageId, name := "Main Page", components := [],
           width := 800, height := 600 }]) ∧
    (∀ (freshPageId : String) (p : Project),
      (Project.make freshPageId p).pages ≠ []) ∧
    (∀ (freshPageId now : String) (d : ProjectDict) (fp : Option String),
      (d.pages = none ∨ d.pages = some []) →
      (Project.from_dict freshPageId now d fp).pages =
        [{ id := freshPageId, name := "Main Page", components := [],
           width := 800, height := 600 }]) ∧
    (∀ (freshPageId now : String) (d : ProjectDict) (fp : Option String),
      (Project.from_dict freshPageId now d fp).pages ≠ []) := by
  have hmk : ∀ (freshPageId : String) (p : Project), p.pages = [] →
      (Project.make freshPageId p).pages =
        [{ id := freshPageId, name := "Main Page", components := [],
           width := 800, height := 600 }] := by
    intro fpid p hp
    simp [Project.make, Project.postInit, hp]
  have hne : ∀ (freshPageId : String) (p : Project),
      (Project.make freshPageId p).pages ≠ [] := by
    intro fpid p
    cases hpp : p.pages with
    | nil => simp [Project.make, Project.postInit, hpp]
    | cons a l => simp [Project.make, Project.postInit, hpp]
  refine ⟨hmk, hne, ?_, ?_⟩
  · intro fpid now d fp hd
    apply hmk
    rcases hd with hd | hd <;> simp [Project.from_dict, hd]
  · intro fpid now d fp
    exact hne fpid _

/-- Witness for C10: a project built with no pages, and one deserialized
from the empty dictionary, both consist of exactly the "Main Page". -/
theorem C10_witness :
    ({ created_at := "t0", modified_at := "t0", pages := [] } : Project).pages = [] ∧
    (Project.make "u1"
      { created_at := "t0", modified_at := "t0", pages := [] }).pages =
      [{ id := "u1", name := "Main Page", components := [], width := 800,
         height := 600 }] ∧
    (Project.from_dict "u2" "t0" {} none).pages =
      [{ id := "u2", name := "Main Page", components := [], width := 800,
         height := 600 }] ∧
    (Project.from_dict "u2" "t0" {} none).pages ≠ [] := by
  have h := C10_post_init_main_page
  refine ⟨rfl, ?_, ?_, ?_⟩
  · exact h.1 "u1" _ rfl
  · exact h.2.2.1 "u2" "t0" {} none (Or.inl rfl)
  · exact h.2.2.2 "u2" "t0" {} none

theorem dictGet_mem {α : Type} (d : List (String × α)) (k : String) (v : α)
    (h : dictGet d k = some v) : (k, v) ∈ d := by
  induction d with
  | nil => simp [dictGet] at h
  | cons p rest ih =>
    obtain ⟨p1, p2⟩ := p
    rw [dictGet_cons] at h
    by_cases hp : p1 = k
    · subst hp
      simp only [beq_self_eq_true, if_true, Option.some.injEq] at h
      subst h
      exact List.mem_cons_self _ _
    · simp only [beq_iff_eq, hp, if_false] at h
      exact List.mem_cons_of_mem _ (ih h)

/-- C6. Component creation contract: for a registered variant name,
`create_component(variant, x, y)` yields a component carrying the freshly
generated id, the variant's declared `default_width`/`default_height` when
the width/height arguments are unspecified (with the `getattr` fallbacks
100/40), and every declared property initialized to its declared default
(variant schemas have distinct property names); for an unregistered
variant name the call fails — the source signals this by returning `None`
(embedded as `none`) rather than a distinct `UnknownVariant` error — and
no component is produced. -/
theorem C6_create_component_contract :
    (∀ (ctype fid : String) (x y : Int) (w h : Option Int),
      dictGet COMPONENT_REGISTRY ctype = none →
      create_component ctype fid x y w h = none) ∧
    (∀ (ctype : String) (cls : ComponentClass) (fid : String) (x y : Int)
        (width height : Option Int),
      dictGet COMPONENT_REGISTRY ctype = some cls →
      create_component ctype fid x y width height =
        some (BaseComponent.init cls fid x y
          (width.getD (cls.default_width.getD 100))
          (height.getD (cls.default_height.getD 40)))) ∧
    (∀ (cls : ComponentClass) (fid : String) (x y w h : Int),
      (BaseComponent.init cls fid x y w h).id = fid ∧
      (BaseComponent.init cls fid x y w h).width = w ∧
      (BaseComponent.init cls fid x y w h).height = h) ∧
    (∀ (ctype : String) (cls : ComponentClass),
      dictGet COMPONENT_REGISTRY ctype = some cls →
      (cls.get_properties.map ComponentProperty.name).Nodup) ∧
    (∀ (cls : ComponentClass) (fid : String) (x y w h : Int)
        (p : ComponentProperty),
      (cls.get_properties.map ComponentProperty.name).Nodup →
      p ∈ cls.get_properties →
      (BaseComponent.init cls fid x y w h).get_property p.name =
        p.default_value) := by
  refine ⟨?_, ?_, ?_, ?_, ?_⟩
  · intro ctype fid x y w h hreg
    simp [create_component, hreg]
  · intro ctype cls fid x y width height hreg
    simp [create_component, hreg]
  · intro cls fid x y w h
    exact ⟨rfl, rfl, rfl⟩
  · intro ctype cls hreg
    have hmem := dictGet_mem _ _ _ hreg
    simp only [COMPONENT_REGISTRY, List.mem_cons, List.not_mem_nil,
      or_false] at hmem
    rcases hmem with h | h | h | h | h | h <;>
      (injection h with h1 h2; subst h2; decide)
  · intro cls fid x y w h p hnd hp
    show (dictGet (initProps cls.get_properties) p.name).getD PValue.null =
      p.default_value
    rw [get_initProps cls.get_properties p hp hnd]
    rfl

/-- Witness for C6: creating a "button" at (10, 20) with unspecified size
yields a 120×40 component with `text = "Button"`; "bogus" is not
registered and yields `none`. -/
theorem C6_witness :
    dictGet COMPONENT_REGISTRY "bogus" = none ∧
    create_component "bogus" "id0" 0 0 none none = none ∧
    dictGet COMPONENT_REGISTRY "button" = some ButtonComponent ∧
    create_component "button" "id1" 10 20 none none =
      some (BaseComponent.init ButtonComponent "id1" 10 20 120 40) ∧
    (BaseComponent.init ButtonComponent "id1" 10 20 120 40).id = "id1" ∧
    (BaseComponent.init ButtonComponent "id1" 10 20 120 40).get_property
      "text" = PValue.s "Button" := by
  have h := C6_create_component_contract
  have hbogus : dictGet COMPONENT_REGISTRY "bogus" = none := by decide
  have hbutton : dictGet COMPONENT_REGISTRY "button" = some ButtonComponent := by
    decide
  refine ⟨hbogus, h.1 "bogus" "id0" 0 0 none none hbogus, hbutton, ?_, ?_, ?_⟩
  · exact h.2.1 "button" ButtonComponent "id1" 10 20 none none hbutton
  · exact (h.2.2.1 ButtonComponent "id1" 10 20 120 40).1
  · exact h.2.2.2.2 ButtonComponent "id1" 10 20 120 40
      { name := "text", display_name := "Text", property_type := "string",
        default_value := .s "Button",
        description := "The text displayed on the button" }
      (by decide) (by decide)

/-- A sample button instance placed on the canvas. -/
def compA : BaseComponent := BaseComponent.init ButtonComponent "a" 0 0 120 40

/-- C2 counterexample: add a button with id "a" to an empty canvas, select
it (the click path calls `AppState.select_component`), then remove it the
way `RemoveComponentCommand.execute` does (`canvas.remove_component`).
The id "a" stays selected while no component "a" exists, violating the
claimed invariant; moreover selecting a nonexistent id "ghost" on an
empty canvas is neither rejected nor a no-op. -/
theorem C2_counterexample :
    ((((CanvasState.add_component {} compA).select_component "a"
      false).remove_component "a")).selection = ["a"] ∧
    ((((CanvasState.add_component {} compA).select_component "a"
      false).remove_component "a")).components = [] ∧
    ¬ SelectionValid (((CanvasState.add_component {} compA).select_component
      "a" false).remove_component "a") ∧
    (CanvasState.select_component {} "ghost" false).selection = ["ghost"] ∧
    ¬ SelectionValid (CanvasState.select_component {} "ghost" false) := by
  refine ⟨rfl, rfl, ?_, rfl, ?_⟩
  · intro h
    exact absurd (h "a" (by decide)) (by decide)
  · intro h
    exact absurd (h "ghost" (by decide)) (by decide)

/-- C2 (amended). The code does not maintain the selection-consistency
invariant: `CanvasArea.remove_component` removes only the wrapper and never
touches the selection (so removal via `RemoveComponentCommand` leaves the
removed id selected), and `AppState.select_component` performs no
existence check (any id is accepted).  What does hold: `delete_selected`
removes every selected component and then clears the selection, so it
always reestablishes a (trivially) valid selection. -/
theorem C2_selection_amended :
    (∀ (cv : CanvasState) (cid : String),
      (cv.remove_component cid).selection = cv.selection) ∧
    (∀ (cv : CanvasState) (cid : String),
      (cv.select_component cid false).selection = [cid]) ∧
    (∀ (cv : CanvasState) (cid : String), cid ∉ cv.selection →
      (cv.select_component cid true).selection = cv.selection ++ [cid]) ∧
    (∀ cv : CanvasState, (cv.delete_selected).selection = [] ∧
      SelectionValid cv.delete_selected) := by
  refine ⟨?_, ?_, ?_, ?_⟩
  · intro cv cid
    unfold CanvasState.remove_component
    by_cases h : cid ∈ cv.components.map Prod.fst <;> simp [h]
  · intro cv cid
    rfl
  · intro cv cid h
    simp [CanvasState.select_component, SelectionState.add_to_selection, h]
  · intro cv
    refine ⟨rfl, ?_⟩
    intro cid hc
    simp [CanvasState.delete_selected] at hc

/-- Witness for C2's amended theorem at a concrete canvas holding the
sample button, with "b" not yet selected. -/
theorem C2_witness :
    ((CanvasState.add_component {} compA).remove_component "a").selection =
      (CanvasState.add_component {} compA).selection ∧
    (CanvasState.select_component {} "b" false).selection = ["b"] ∧
    ("b" ∉ (CanvasState.add_component {} compA).selection ∧
      ((CanvasState.add_component {} compA).select_component "b"
        true).selection = (CanvasState.add_component {} compA).selection ++ ["b"]) ∧
    ((CanvasState.add_component {} compA).delete_selected).selection = [] := by
  have h := C2_selection_amended
  refine ⟨h.1 _ "a", h.2.1 _ "b", ⟨by decide, h.2.2.1 _ "b" (by decide)⟩,
    (h.2.2.2 _).1⟩

theorem execute_eq_of_success {α σ : Type} (sem : CmdSem α σ) (cs : CommandStack α)
    (c : α) (s : σ) (s' : σ) (hguard : cs.is_executing = false)
    (hexec : sem.execF c s = some s') :
    CommandStack.execute sem cs c s =
      ({ undo_stack := (cs.undo_stack ++ [c]).drop
          (cs.undo_stack.length + 1 - cs.max_size),
         redo_stack := [], max_size := cs.max_size, is_executing := false },
       s', false) := by
  simp [CommandStack.execute, hguard, hexec]

theorem execute_eq_of_guard {α σ : Type} (sem : CmdSem α σ) (cs : CommandStack α)
    (c : α) (s : σ) (hguard : cs.is_executing = true) :
    CommandStack.execute sem cs c s = (cs, s, false) := by
  simp [CommandStack.execute, hguard]

/-- Folding `CommandStack.execute` over a command list (the raised flag of
each call is discarded, as a caller catching exceptions would). -/
def execAll {α σ : Type} (sem : CmdSem α σ) (st : CommandStack α × σ)
    (cmds : List α) : CommandStack α × σ :=
  cmds.foldl (fun st c =>
    ((CommandStack.execute sem st.1 c st.2).1,
     (CommandStack.execute sem st.1 c st.2).2.1)) st

/-- One user-driven history operation: an `undo()` or a `redo()` call. -/
inductive HistOp where
  | u
  | r
deriving DecidableEq, Repr

/-- Applying one history operation to a stack/state pair. -/
def applyHistOp {α σ : Type} (sem : CmdSem α σ) (st : CommandStack α × σ) :
    HistOp → CommandStack α × σ
  | .u => ((CommandStack.undo sem st.1 st.2).1, (CommandStack.undo sem st.1 st.2).2.1)
  | .r => ((CommandStack.redo sem st.1 st.2).1, (CommandStack.redo sem st.1 st.2).2.1)

/-- Applying a whole sequence of undo/redo calls. -/
def applyHistOps {α σ : Type} (sem : CmdSem α σ) (st : CommandStack α × σ)
    (ops : List HistOp) : CommandStack α × σ :=
  ops.foldl (applyHistOp sem) st

/-- Undo and redo only move commands between the two stacks (or lose them
when a re-run raises): no command enters the stacks from outside. -/
theorem applyHistOp_mem {α σ : Type} (sem : CmdSem α σ) (st : CommandStack α × σ)
    (op : HistOp) (c : α)
    (h : c ∈ (applyHistOp sem st op).1.undo_stack ∨
      c ∈ (applyHistOp sem st op).1.redo_stack) :
    c ∈ st.1.undo_stack ∨ c ∈ st.1.redo_stack := by
  cases op with
  | u =>
    simp only [applyHistOp, CommandStack.undo] at h
    cases hlast : st.1.undo_stack.getLast? with
    | none => rw [hlast] at h; exact h
    | some c' =>
      rw [hlast] at h
      simp only at h
      rcases h with h | h
      · exact Or.inl ((List.dropLast_sublist _).mem h)
      · rcases List.mem_append.mp h with h | h
        · exact Or.inr h
        · simp only [List.mem_singleton] at h
          exact Or.inl (h ▸ List.mem_of_mem_getLast? hlast)
  | r =>
    simp only [applyHistOp, CommandStack.redo] at h
    cases hlast : st.1.redo_stack.getLast? with
    | none => rw [hlast] at h; exact h
    | some c' =>
      rw [hlast] at h
      simp only at h
      cases hex : sem.execF c' st.2 with
      | some s' =>
        rw [hex] at h
        simp only at h
        rcases h with h | h
        · rcases List.mem_append.mp h with h | h
          · exact Or.inl h
          · simp only [List.mem_singleton] at h
            exact Or.inr (h ▸ List.mem_of_mem_getLast? hlast)
        · exact Or.inr ((List.dropLast_sublist _).mem h)
      | none =>
        rw [hex] at h
        simp only at h
        rcases h with h | h
        · exact Or.inl h
        · exact Or.inr ((List.dropLast_sublist _).mem h)

theorem applyHistOps_mem {α σ : Type} (sem : CmdSem α σ) (ops : List HistOp) :
    ∀ (st : CommandStack α × σ) (c : α),
      (c ∈ (applyHistOps sem st ops).1.undo_stack ∨
        c ∈ (applyHistOps sem st ops).1.redo_stack) →
      c ∈ st.1.undo_stack ∨ c ∈ st.1.redo_stack := by
  induction ops with
  | nil => intro st c h; exact h
  | cons op ops ih =>
    intro st c h
    have hstep : applyHistOps sem st (op :: ops) =
        applyHistOps sem (applyHistOp sem st op) ops := rfl
    rw [hstep] at h
    exact applyHistOp_mem sem st op c (ih _ c h)

theorem mem_drop_range (n m k : Nat) (h : k ∈ (List.range n).drop m) : m ≤ k := by
  obtain ⟨i, hi, hk⟩ := List.mem_iff_getElem.mp h
  rw [List.getElem_drop] at hk
  rw [List.getElem_range] at hk
  omega

/-- The always-succeeding no-op semantics over labelled commands, used to
observe the pure stack discipline. -/
def semNat : CmdSem Nat Unit :=
  { execF := fun _ _ => some (), undoF := fun _ _ => () }

theorem drop_append_of_le {α : Type} (l m : List α) (d : Nat) (h : d ≤ l.length) :
    l.drop d ++ m = (l ++ m).drop d := by
  rw [List.drop_append_eq_append_drop]
  have h0 : d - l.length = 0 := by omega
  rw [h0, List.drop_zero]

/-- Shape of a run of successful executes on a cap-100 stack with the
guard down: the undo stack holds the last 100 of the old stack plus the
executed commands, and the redo stack is cleared by the first execute. -/
theorem execAll_semNat_go : ∀ (cmds u r : List Nat), u.length ≤ 100 →
    execAll semNat
      ({ undo_stack := u, redo_stack := r, max_size := 100,
         is_executing := false }, ()) cmds =
      ({ undo_stack := (u ++ cmds).drop ((u ++ cmds).length - 100),
         redo_stack := if cmds.isEmpty then r else [], max_size := 100,
         is_executing := false }, ()) := by
  intro cmds
  induction cmds with
  | nil =>
    intro u r hu
    simp only [execAll, List.foldl_nil, List.append_nil, List.isEmpty_nil,
      if_true]
    have h0 : u.length - 100 = 0 := by omega
    rw [h0, List.drop_zero]
  | cons c rest ih =>
    intro u r hu
    have hexec := execute_eq_of_success semNat
      { undo_stack := u, redo_stack := r, max_size := 100,
        is_executing := false } c () () rfl rfl
    have hstep : execAll semNat
        ({ undo_stack := u, redo_stack := r, max_size := 100,
           is_executing := false }, ()) (c :: rest) =
        execAll semNat
          ({ undo_stack := (u ++ [c]).drop (u.length + 1 - 100),
             redo_stack := [], max_size := 100, is_executing := false }, ())
          rest := by
      simp only [execAll, List.foldl_cons, hexec]
    rw [hstep]
    have hu' : ((u ++ [c]).drop (u.length + 1 - 100)).length ≤ 100 := by
      rw [List.length_drop, List.length_append]
      simp only [List.length_singleton]
      omega
    rw [ih ((u ++ [c]).drop (u.length + 1 - 100)) [] hu']
    have hda : u.length + 1 - 100 ≤ (u ++ [c]).length := by
      rw [List.length_append]; simp only [List.length_singleton]; omega
    have hlist : ((u ++ [c]).drop (u.length + 1 - 100) ++ rest).drop
        (((u ++ [c]).drop (u.length + 1 - 100) ++ rest).length - 100) =
        (u ++ c :: rest).drop ((u ++ c :: rest).length - 100) := by
      rw [drop_append_of_le _ rest _ hda, List.drop_drop]
      have hshape : (u ++ [c]) ++ rest = u ++ c :: rest := by
        rw [List.append_assoc, List.singleton_append]
      rw [hshape]
      apply congrArg (fun n => List.drop n (u ++ c :: rest))
      simp only [List.length_append, List.length_drop, List.length_cons,
        List.length_singleton]
      omega
    rw [hlist]
    simp

set_option maxRecDepth 4000 in
/-- Executing the 150 labelled commands `0..149` on a fresh stack leaves
exactly the labels `50..149` undoable and the redo stack empty. -/
theorem execAll_range150 :
    execAll semNat ({}, ()) (List.range 150) =
      ({ undo_stack := (List.range 150).drop 50, redo_stack := [],
         max_size := 100, is_executing := false }, ()) := by
  have hemp : (List.range 150).isEmpty = false := by decide
  have h := execAll_semNat_go (List.range 150) [] [] (by simp)
  simp only [List.nil_append] at h
  rw [h, List.length_range, hemp]
  norm_num

/-- C3. History bound and redo invalidation: a successful
`CommandStack.execute` pushes the command, clears the redo stack, and
evicts the oldest entries whenever the cap is exceeded (keeping the most
recent `max_size`); a `redo()` right after any successful execute returns
absent and changes nothing; after executing 150 distinct commands on a
fresh stack with the default cap 100, exactly the 100 most recent are on
the undo stack; and none of the 50 evicted commands can re-enter either
stack under any subsequent sequence of undo/redo calls. -/
theorem C3_history_bound :
    (∀ (α σ : Type) (sem : CmdSem α σ) (cs : CommandStack α) (c : α) (s s' : σ),
      cs.is_executing = false → sem.execF c s = some s' →
      CommandStack.execute sem cs c s =
        ({ undo_stack := (cs.undo_stack ++ [c]).drop
            (cs.undo_stack.length + 1 - cs.max_size),
           redo_stack := [], max_size := cs.max_size, is_executing := false },
         s', false) ∧
      ((cs.undo_stack.length < cs.max_size →
        (CommandStack.execute sem cs c s).1.undo_stack = cs.undo_stack ++ [c]) ∧
       CommandStack.redo sem (CommandStack.execute sem cs c s).1
         (CommandStack.execute sem cs c s).2.1 =
         ((CommandStack.execute sem cs c s).1,
          (CommandStack.execute sem cs c s).2.1, none))) ∧
    (execAll semNat ({}, ()) (List.range 150)).1.undo_stack =
      (List.range 150).drop 50 ∧
    (execAll semNat ({}, ()) (List.range 150)).1.redo_stack = [] ∧
    (∀ (ops : List HistOp) (k : Nat), k < 50 →
      k ∉ (applyHistOps semNat (execAll semNat ({}, ()) (List.range 150))
        ops).1.undo_stack ∧
      k ∉ (applyHistOps semNat (execAll semNat ({}, ()) (List.range 150))
        ops).1.redo_stack) := by
  have h150 : (execAll semNat ({}, ()) (List.range 150)).1.undo_stack =
      (List.range 150).drop 50 := by rw [execAll_range150]
  have h150r : (execAll semNat ({}, ()) (List.range 150)).1.redo_stack = [] := by
    rw [execAll_range150]
  refine ⟨?_, h150, h150r, ?_⟩
  · intro α σ sem cs c s s' hguard hexec
    have heq := execute_eq_of_success sem cs c s s' hguard hexec
    refine ⟨heq, ?_, ?_⟩
    · intro hlt
      rw [heq]
      have : cs.undo_stack.length + 1 - cs.max_size = 0 := by omega
      rw [this, List.drop_zero]
    · rw [heq]
      simp [CommandStack.redo]
  · intro ops k hk
    constructor
    · intro hc
      have := applyHistOps_mem semNat ops _ k (Or.inl hc)
      rw [h150, h150r] at this
      rcases this with h | h
      · exact absurd (mem_drop_range 150 50 k h) (by omega)
      · simp at h
    · intro hc
      have := applyHistOps_mem semNat ops _ k (Or.inr hc)
      rw [h150, h150r] at this
      rcases this with h | h
      · exact absurd (mem_drop_range 150 50 k h) (by omega)
      · simp at h

/-- Witness for C3: executing command `7` on a fresh stack (cap 100, guard
down) pushes it and leaves the redo stack empty; an immediate redo returns
absent; and after the 150-command run, the evicted command `0` stays gone
under the concrete history sequence `[undo, undo, redo]`. -/
theorem C3_witness :
    CommandStack.execute semNat {} 7 () =
      ({ undo_stack := [7], redo_stack := [], max_size := 100,
         is_executing := false }, (), false) ∧
    CommandStack.redo semNat (CommandStack.execute semNat {} 7 ()).1 () =
      ((CommandStack.execute semNat {} 7 ()).1, (), none) ∧
    (0 ∉ (applyHistOps semNat (execAll semNat ({}, ()) (List.range 150))
      [HistOp.u, HistOp.u, HistOp.r]).1.undo_stack ∧
     0 ∉ (applyHistOps semNat (execAll semNat ({}, ()) (List.range 150))
      [HistOp.u, HistOp.u, HistOp.r]).1.redo_stack) := by
  have h := C3_history_bound
  have h1 := h.1 Nat Unit semNat {} 7 () () rfl rfl
  refine ⟨?_, ?_, h.2.2.2 [HistOp.u, HistOp.u, HistOp.r] 0 (by omega)⟩
  · rw [h1.1]
    rfl
  · have h2 := h1.2.2
    rw [h1.1] at h2
    rw [h1.1]
    exact h2

/-- C5. Execution-failure atomicity: when a command's `execute()` raises
(its apply logic yields no state), `CommandStack.execute` propagates the
failure (raised flag), pushes nothing, leaves both stacks and the document
state exactly as before, and the `finally` block has reset the
re-entrancy guard, so a subsequent successful `execute` is not ignored and
pushes normally. -/
theorem C5_execute_failure_atomicity (α σ : Type) (sem : CmdSem α σ)
    (cs : CommandStack α) (c : α) (s : σ)
    (hguard : cs.is_executing = false) (hfail : sem.execF c s = none) :
    CommandStack.execute sem cs c s = (cs, s, true) ∧
    (CommandStack.execute sem cs c s).1.is_executing = false ∧
    (∀ (c₂ : α) (s₂ s₂' : σ), sem.execF c₂ s₂ = some s₂' →
      CommandStack.execute sem (CommandStack.execute sem cs c s).1 c₂ s₂ =
        ({ undo_stack := (cs.undo_stack ++ [c₂]).drop
            (cs.undo_stack.length + 1 - cs.max_size),
           redo_stack := [], max_size := cs.max_size, is_executing := false },
         s₂', false)) := by
  have hmain : CommandStack.execute sem cs c s = (cs, s, true) := by
    have : ({ cs with is_executing := false } : CommandStack α) = cs := by
      obtain ⟨u, r, m, e⟩ := cs
      simp only at hguard
      rw [hguard]
    simp [CommandStack.execute, hguard, hfail, this]
  refine ⟨hmain, by rw [hmain]; exact hguard, ?_⟩
  intro c₂ s₂ s₂' hexec
  rw [hmain]
  exact execute_eq_of_success sem cs c₂ s₂ s₂' hguard hexec

/-- Witness for C5: a command type whose command `1` fails on the unit
state while command `2` succeeds; executing `1` on a fresh stack reports
the failure and leaves everything unchanged, and then executing `2`
pushes normally. -/
theorem C5_witness :
    (({} : CommandStack Nat).is_executing = false ∧
      (CmdSem.mk (fun c (_ : Unit) => if c = 1 then none else some ())
        (fun _ _ => ())).execF 1 () = none) ∧
    CommandStack.execute
      (CmdSem.mk (fun c (_ : Unit) => if c = 1 then none else some ())
        (fun _ _ => ())) {} 1 () = ({}, (), true) ∧
    CommandStack.execute
      (CmdSem.mk (fun c (_ : Unit) => if c = 1 then none else some ())
        (fun _ _ => ()))
      (CommandStack.execute
        (CmdSem.mk (fun c (_ : Unit) => if c = 1 then none else some ())
          (fun _ _ => ())) {} 1 ()).1 2 () =
      ({ undo_stack := [2], redo_stack := [], max_size := 100,
         is_executing := false }, (), false) := by
  have h := C5_execute_failure_atomicity Nat Unit
    (CmdSem.mk (fun c (_ : Unit) => if c = 1 then none else some ())
      (fun _ _ => ())) {} 1 () rfl rfl
  refine ⟨⟨rfl, rfl⟩, h.1, ?_⟩
  have h3 := h.2.2 2 () () rfl
  rw [h3]
  rfl

/-! ### The observable content of the component store

`xyOf`, `whOf` and `propOf` read, for a component id, the position, the
size, and a named property value (through `get_property`).  The undo/redo
inverse law is stated in terms of these observations: they are exactly the
fields the spec says the commands mutate and restore. -/

/-- The position of the component with the given id. -/
def xyOf (s : Store) (k : String) : Option (Int × Int) :=
  (dictGet s k).map (fun c => (c.x, c.y))

/-- The size of the component with the given id. -/
def whOf (s : Store) (k : String) : Option (Int × Int) :=
  (dictGet s k).map (fun c => (c.width, c.height))

/-- The value a property read returns on the component with the given id. -/
def propOf (s : Store) (k : String) (n : String) : Option PValue :=
  (dictGet s k).map (fun c => c.get_property n)

/-- Two stores are observation-equal when every id resolves to the same
position, size, and property reads. -/
def ObsEq (s t : Store) : Prop :=
  (∀ k, xyOf s k = xyOf t k) ∧ (∀ k, whOf s k = whOf t k) ∧
  (∀ k n, propOf s k n = propOf t k n)

theorem obsEq_refl (s : Store) : ObsEq s s :=
  ⟨fun _ => rfl, fun _ => rfl, fun _ _ => rfl⟩

theorem obsEq_trans {s t u : Store} (h1 : ObsEq s t) (h2 : ObsEq t u) :
    ObsEq s u :=
  ⟨fun k => (h1.1 k).trans (h2.1 k), fun k => (h1.2.1 k).trans (h2.2.1 k),
   fun k n => (h1.2.2 k n).trans (h2.2.2 k n)⟩

theorem dictGet_map_override {α : Type} (d : List (String × α)) (k : String)
    (v : α) (k' : String) :
    dictGet (d.map (fun p => if p.1 = k then (k, v) else p)) k' =
      if k' = k then (dictGet d k).map (fun _ => v) else dictGet d k' := by
  induction d with
  | nil => by_cases hk : k' = k <;> simp [dictGet, hk]
  | cons p rest ih =>
    obtain ⟨pk, pv⟩ := p
    rw [List.map_cons]
    by_cases hpk : pk = k
    · subst hpk
      by_cases hk : k' = pk
      · subst hk
        simp [dictGet_cons]
      · simp [dictGet_cons, Ne.symm hk, hk, ih]
    · have hstep : (if (pk, pv).1 = k then (k, v) else (pk, pv)) = (pk, pv) := by
        simp [hpk]
      rw [hstep]
      by_cases hpk2 : pk = k'
      · subst hpk2
        have hk : ¬ (pk = k) := hpk
        simp [dictGet_cons, hk]
      · simp [dictGet_cons, hpk, hpk2, ih]

theorem dictGet_dictSet {α : Type} (d : List (String × α)) (k : String) (v : α)
    (k' : String) :
    dictGet (dictSet d k v) k' =
      if k' = k then some v else dictGet d k' := by
  by_cases hmem : (dictGet d k).isSome
  · have hset : dictSet d k v = d.map (fun p => if p.1 = k then (k, v) else p) := by
      simp [dictSet, hmem]
    rw [hset, dictGet_map_override]
    by_cases hk : k' = k
    · obtain ⟨w, hw⟩ := Option.isSome_iff_exists.mp hmem
      simp [hk, hw]
    · simp [hk]
  · have hset : dictSet d k v = d ++ [(k, v)] := by simp [dictSet, hmem]
    have hnone : dictGet d k = none := by
      cases hd : dictGet d k <;> simp_all
    rw [hset, dictGet_append]
    by_cases hk : k' = k
    · subst hk
      rw [hnone]
      simp [dictGet_cons]
    · have hone : dictGet [(k, v)] k' = none := by
        rw [dictGet_cons]
        simp [Ne.symm hk, dictGet_nil]
      rw [hone, Option.or_none]
      simp [hk]

theorem dictGet_updStore (s : Store) (cid : String)
    (f : BaseComponent → BaseComponent) (k : String) :
    dictGet (updStore s cid f) k =
      if k = cid then (dictGet s k).map f else dictGet s k := by
  induction s with
  | nil => by_cases hk : k = cid <;> simp [updStore, dictGet, hk]
  | cons p rest ih =>
    obtain ⟨pk, pv⟩ := p
    simp only [updStore, List.map_cons] at ih ⊢
    by_cases hpk : pk = cid
    · subst hpk
      by_cases hk : k = pk
      · subst hk
        simp [dictGet_cons]
      · simp [dictGet_cons, Ne.symm hk, hk, ih]
    · have hstep : (if (pk, pv).1 = cid then (pk, f pv) else (pk, pv)) =
          (pk, pv) := by simp [hpk]
      rw [hstep]
      by_cases hpk2 : pk = k
      · subst hpk2
        have hk2 : ¬ (pk = cid) := hpk
        simp [dictGet_cons, hk2, ih]
      · simp [dictGet_cons, hpk2, ih]

theorem get_property_set_property (c : BaseComponent) (k : String) (v : PValue)
    (k' : String) :
    (c.set_property k v).get_property k' =
      if k' = k then v else c.get_property k' := by
  unfold BaseComponent.set_property BaseComponent.get_property
  simp only
  rw [dictGet_dictSet]
  by_cases hk : k' = k <;> simp [hk]

/-- A command's stored old values were captured from the live component
at construction time (as the UI does when it records a command): the
component exists and its current field values are the command's olds. -/
def capturesB : EditCmd → Store → Bool
  | .move cid old_x old_y _ _, s =>
    match dictGet s cid with
    | some comp => comp.x == old_x && comp.y == old_y
    | none => false
  | .resize cid old_w old_h _ _, s =>
    match dictGet s cid with
    | some comp => comp.width == old_w && comp.height == old_h
    | none => false
  | .changeProp cid name old_v _, s =>
    match dictGet s cid with
    | some comp => comp.get_property name == old_v
    | none => false

/-- Every command of the sequence captures its old values from the state
produced by executing its predecessors. -/
def wellCapturedB : Store → List EditCmd → Bool
  | _, [] => true
  | s, c :: cs => capturesB c s && wellCapturedB (c.execF s) cs

/-- Executing a command sequence directly on the store. -/
def execSeq (s : Store) (cs : List EditCmd) : Store :=
  cs.foldl (fun st c => c.execF st) s

/-- Undoing a command sequence in reverse order directly on the store. -/
def undoSeq (s : Store) (cs : List EditCmd) : Store :=
  cs.reverse.foldl (fun st c => c.undoF st) s

/-- `n` consecutive `CommandStack.undo()` calls. -/
def undoAll {α σ : Type} (sem : CmdSem α σ) : CommandStack α × σ → Nat →
    CommandStack α × σ
  | st, 0 => st
  | st, n + 1 =>
    undoAll sem ((CommandStack.undo sem st.1 st.2).1,
      (CommandStack.undo sem st.1 st.2).2.1) n

/-- `n` consecutive `CommandStack.redo()` calls. -/
def redoAll {α σ : Type} (sem : CmdSem α σ) : CommandStack α × σ → Nat →
    CommandStack α × σ
  | st, 0 => st
  | st, n + 1 =>
    redoAll sem ((CommandStack.redo sem st.1 st.2).1,
      (CommandStack.redo sem st.1 st.2).2.1) n

/-! ### Observation equations for the three field updaters -/

theorem xyOf_set_xy (s : Store) (cid : String) (a b : Int) (k : String) :
    xyOf (updStore s cid (fun c => { c with x := a, y := b })) k =
      if k = cid then (xyOf s k).map (fun _ => (a, b)) else xyOf s k := by
  unfold xyOf
  rw [dictGet_updStore]
  by_cases hk : k = cid <;> cases dictGet s k <;> simp [hk]

theorem whOf_set_xy (s : Store) (cid : String) (a b : Int) (k : String) :
    whOf (updStore s cid (fun c => { c with x := a, y := b })) k = whOf s k := by
  unfold whOf
  rw [dictGet_updStore]
  by_cases hk : k = cid <;> cases dictGet s k <;> simp [hk]

theorem propOf_set_xy (s : Store) (cid : String) (a b : Int) (k n : String) :
    propOf (updStore s cid (fun c => { c with x := a, y := b })) k n =
      propOf s k n := by
  unfold propOf
  rw [dictGet_updStore]
  by_cases hk : k = cid <;> cases dictGet s k <;>
    simp [hk, BaseComponent.get_property]

theorem xyOf_set_wh (s : Store) (cid : String) (a b : Int) (k : String) :
    xyOf (updStore s cid (fun c => { c with width := a, height := b })) k =
      xyOf s k := by
  unfold xyOf
  rw [dictGet_updStore]
  by_cases hk : k = cid <;> cases dictGet s k <;> simp [hk]

theorem whOf_set_wh (s : Store) (cid : String) (a b : Int) (k : String) :
    whOf (updStore s cid (fun c => { c with width := a, height := b })) k =
      if k = cid then (whOf s k).map (fun _ => (a, b)) else whOf s k := by
  unfold whOf
  rw [dictGet_updStore]
  by_cases hk : k = cid <;> cases dictGet s k <;> simp [hk]

theorem propOf_set_wh (s : Store) (cid : String) (a b : Int) (k n : String) :
    propOf (updStore s cid (fun c => { c with width := a, height := b })) k n =
      propOf s k n := by
  unfold propOf
  rw [dictGet_updStore]
  by_cases hk : k = cid <;> cases dictGet s k <;>
    simp [hk, BaseComponent.get_property]

theorem xyOf_set_prop (s : Store) (cid : String) (name : String) (v : PValue)
    (k : String) :
    xyOf (updStore s cid (fun c => c.set_property name v)) k = xyOf s k := by
  unfold xyOf
  rw [dictGet_updStore]
  by_cases hk : k = cid <;> cases dictGet s k <;>
    simp [hk, BaseComponent.set_property]

theorem whOf_set_prop (s : Store) (cid : String) (name : String) (v : PValue)
    (k : String) :
    whOf (updStore s cid (fun c => c.set_property name v)) k = whOf s k := by
  unfold whOf
  rw [dictGet_updStore]
  by_cases hk : k = cid <;> cases dictGet s k <;>
    simp [hk, BaseComponent.set_property]

theorem propOf_set_prop (s : Store) (cid : String) (name : String) (v : PValue)
    (k n : String) :
    propOf (updStore s cid (fun c => c.set_property name v)) k n =
      if k = cid then
        (if n = name then (propOf s k n).map (fun _ => v) else propOf s k n)
      else propOf s k n := by
  unfold propOf
  rw [dictGet_updStore]
  by_cases hk : k = cid
  · cases dictGet s k <;>
      simp [hk, get_property_set_property] <;>
      by_cases hn : n = name <;> simp [hn]
  · simp [hk]

theorem obsEq_updStore_xy {s t : Store} (h : ObsEq s t) (cid : String)
    (a b : Int) :
    ObsEq (updStore s cid (fun c => { c with x := a, y := b }))
      (updStore t cid (fun c => { c with x := a, y := b })) := by
  refine ⟨fun k => ?_, fun k => ?_, fun k n => ?_⟩
  · rw [xyOf_set_xy, xyOf_set_xy, h.1 k]
  · rw [whOf_set_xy, whOf_set_xy]
    exact h.2.1 k
  · rw [propOf_set_xy, propOf_set_xy]
    exact h.2.2 k n

theorem obsEq_updStore_wh {s t : Store} (h : ObsEq s t) (cid : String)
    (a b : Int) :
    ObsEq (updStore s cid (fun c => { c with width := a, height := b }))
      (updStore t cid (fun c => { c with width := a, height := b })) := by
  refine ⟨fun k => ?_, fun k => ?_, fun k n => ?_⟩
  · rw [xyOf_set_wh, xyOf_set_wh]
    exact h.1 k
  · rw [whOf_set_wh, whOf_set_wh, h.2.1 k]
  · rw [propOf_set_wh, propOf_set_wh]
    exact h.2.2 k n

theorem obsEq_updStore_prop {s t : Store} (h : ObsEq s t) (cid : String)
    (name : String) (v : PValue) :
    ObsEq (updStore s cid (fun c => c.set_property name v))
      (updStore t cid (fun c => c.set_property name v)) := by
  refine ⟨fun k => ?_, fun k => ?_, fun k n => ?_⟩
  · rw [xyOf_set_prop, xyOf_set_prop]
    exact h.1 k
  · rw [whOf_set_prop, whOf_set_prop]
    exact h.2.1 k
  · rw [propOf_set_prop, propOf_set_prop, h.2.2 k n]

theorem obsEq_execF (c : EditCmd) {s t : Store} (h : ObsEq s t) :
    ObsEq (c.execF s) (c.execF t) := by
  cases c with
  | move cid ox oy nx ny => exact obsEq_updStore_xy h cid nx ny
  | resize cid ow oh nw nh => exact obsEq_updStore_wh h cid nw nh
  | changeProp cid name ov nv => exact obsEq_updStore_prop h cid name nv

theorem obsEq_undoF (c : EditCmd) {s t : Store} (h : ObsEq s t) :
    ObsEq (c.undoF s) (c.undoF t) := by
  cases c with
  | move cid ox oy nx ny => exact obsEq_updStore_xy h cid ox oy
  | resize cid ow oh nw nh => exact obsEq_updStore_wh h cid ow oh
  | changeProp cid name ov nv => exact obsEq_updStore_prop h cid name ov

/-- A command whose old values were captured from the current state is
inverted exactly (at the level of the observable fields) by its undo. -/
theorem undo_exec_captured (c : EditCmd) (s : Store)
    (h : capturesB c s = true) : ObsEq (c.undoF (c.execF s)) s := by
  cases c with
  | move cid ox oy nx ny =>
    simp only [capturesB] at h
    cases hd : dictGet s cid with
    | none => rw [hd] at h; cases h
    | some comp =>
      rw [hd] at h
      simp only [Bool.and_eq_true, beq_iff_eq] at h
      simp only [EditCmd.execF, EditCmd.undoF]
      refine ⟨fun k => ?_, fun k => ?_, fun k n => ?_⟩
      · rw [xyOf_set_xy, xyOf_set_xy]
        by_cases hk : k = cid
        · subst hk
          simp only [if_true, Option.map_map]
          unfold xyOf
          rw [hd]
          simp [h.1, h.2]
        · simp [hk]
      · rw [whOf_set_xy, whOf_set_xy]
      · rw [propOf_set_xy, propOf_set_xy]
  | resize cid ow oh nw nh =>
    simp only [capturesB] at h
    cases hd : dictGet s cid with
    | none => rw [hd] at h; cases h
    | some comp =>
      rw [hd] at h
      simp only [Bool.and_eq_true, beq_iff_eq] at h
      simp only [EditCmd.execF, EditCmd.undoF]
      refine ⟨fun k => ?_, fun k => ?_, fun k n => ?_⟩
      · rw [xyOf_set_wh, xyOf_set_wh]
      · rw [whOf_set_wh, whOf_set_wh]
        by_cases hk : k = cid
        · subst hk
          simp only [if_true, Option.map_map]
          unfold whOf
          rw [hd]
          simp [h.1, h.2]
        · simp [hk]
      · rw [propOf_set_wh, propOf_set_wh]
  | changeProp cid name ov nv =>
    simp only [capturesB] at h
    cases hd : dictGet s cid with
    | none => rw [hd] at h; cases h
    | some comp =>
      rw [hd] at h
      simp only [beq_iff_eq] at h
      simp only [EditCmd.execF, EditCmd.undoF]
      refine ⟨fun k => ?_, fun k => ?_, fun k n => ?_⟩
      · rw [xyOf_set_prop, xyOf_set_prop]
      · rw [whOf_set_prop, whOf_set_prop]
      · rw [propOf_set_prop, propOf_set_prop]
        by_cases hk : k = cid
        · subst hk
          by_cases hn : n = name
          · subst hn
            simp only [if_true, Option.map_map]
            unfold propOf
            rw [hd]
            simp [h]
          · simp [hn]
        · simp [hk]

/-- Undoing every executed command in reverse order restores all
observable fields, provided each command captured its old values from the
state it executed on. -/
theorem undoSeq_execSeq (cs : List EditCmd) : ∀ s : Store,
    wellCapturedB s cs = true → ObsEq (undoSeq (execSeq s cs) cs) s := by
  induction cs with
  | nil => intro s _; exact obsEq_refl s
  | cons c cs ih =>
    intro s hwc
    simp only [wellCapturedB, Bool.and_eq_true] at hwc
    have hfold : undoSeq (execSeq s (c :: cs)) (c :: cs) =
        c.undoF (undoSeq (execSeq (c.execF s) cs) cs) := by
      simp only [undoSeq, execSeq, List.foldl_cons, List.reverse_cons,
        List.foldl_append, List.foldl_cons, List.foldl_nil]
    rw [hfold]
    exact obsEq_trans (obsEq_undoF c (ih (c.execF s) hwc.2))
      (undo_exec_captured c s hwc.1)

theorem obsEq_execSeq (cs : List EditCmd) : ∀ {s t : Store}, ObsEq s t →
    ObsEq (execSeq s cs) (execSeq t cs) := by
  induction cs with
  | nil => intro s t h; exact h
  | cons c cs ih =>
    intro s t h
    simp only [execSeq, List.foldl_cons]
    exact ih (obsEq_execF c h)

/-- Redoing every command after the full undo restores the post-sequence
observable fields. -/
theorem redo_after_undo (cs : List EditCmd) (s : Store)
    (hwc : wellCapturedB s cs = true) :
    ObsEq (execSeq (undoSeq (execSeq s cs) cs) cs) (execSeq s cs) :=
  obsEq_execSeq cs (undoSeq_execSeq cs s hwc)

/-- Executing an (uncapped) run of edit commands through the stack: the
undo stack accumulates them in order and the document state is `execSeq`. -/
theorem execAll_editSem : ∀ (cmds u r : List EditCmd) (s : Store) (m : Nat),
    u.length + cmds.length ≤ m →
    execAll editSem
      ({ undo_stack := u, redo_stack := r, max_size := m,
         is_executing := false }, s) cmds =
      ({ undo_stack := u ++ cmds, redo_stack := if cmds.isEmpty then r else [],
         max_size := m, is_executing := false }, execSeq s cmds) := by
  intro cmds
  induction cmds with
  | nil =>
    intro u r s m _
    simp [execAll, execSeq]
  | cons c rest ih =>
    intro u r s m hm
    have hexec := execute_eq_of_success editSem
      { undo_stack := u, redo_stack := r, max_size := m,
        is_executing := false } c s (c.execF s) rfl rfl
    have hdrop : u.length + 1 - m = 0 := by
      simp only [List.length_cons] at hm
      omega
    have hstep : execAll editSem
        ({ undo_stack := u, redo_stack := r, max_size := m,
           is_executing := false }, s) (c :: rest) =
        execAll editSem
          ({ undo_stack := u ++ [c], redo_stack := [], max_size := m,
             is_executing := false }, c.execF s) rest := by
      simp only [execAll, List.foldl_cons, hexec]
      rw [hdrop, List.drop_zero]
    have hm' : (u ++ [c]).length + rest.length ≤ m := by
      rw [List.length_append, List.length_singleton]
      simp only [List.length_cons] at hm
      omega
    rw [hstep, ih (u ++ [c]) [] (c.execF s) m hm']
    rw [List.append_assoc, List.singleton_append]
    have hseq : execSeq (c.execF s) rest = execSeq s (c :: rest) := rfl
    rw [hseq]
    simp

/-- `n = cs.length` undo calls pop the block `cs` off the top of the undo
stack, apply the commands' undos newest-first, and stack them onto the
redo stack in reverse order. -/
theorem undoAll_stack {α σ : Type} (sem : CmdSem α σ) (cs : List α) :
    ∀ (u r : List α) (s : σ) (m : Nat) (b : Bool),
    undoAll sem
      ({ undo_stack := u ++ cs, redo_stack := r, max_size := m,
         is_executing := b }, s) cs.length =
      ({ undo_stack := u, redo_stack := r ++ cs.reverse, max_size := m,
         is_executing := b },
       cs.reverse.foldl (fun st c => sem.undoF c st) s) := by
  induction cs using List.reverseRecOn with
  | nil => intro u r s m b; simp [undoAll]
  | append_singleton l a ih =>
    intro u r s m b
    have hlen : (l ++ [a]).length = l.length + 1 := by
      rw [List.length_append, List.length_singleton]
    rw [hlen]
    have hpop : CommandStack.undo sem
        { undo_stack := u ++ (l ++ [a]), redo_stack := r, max_size := m,
          is_executing := b } s =
        ({ undo_stack := u ++ l, redo_stack := r ++ [a], max_size := m,
           is_executing := b }, sem.undoF a s, some a) := by
      have hl : (u ++ (l ++ [a])).getLast? = some a := by
        rw [← List.append_assoc]
        exact List.getLast?_concat _
      have hdl : (u ++ (l ++ [a])).dropLast = u ++ l := by
        rw [← List.append_assoc]
        exact List.dropLast_concat
      simp only [CommandStack.undo, hl, hdl]
    show undoAll sem ((CommandStack.undo sem _ s).1,
      (CommandStack.undo sem _ s).2.1) l.length = _
    rw [hpop]
    rw [ih u (r ++ [a]) (sem.undoF a s) m b]
    rw [List.reverse_append, List.reverse_singleton, List.singleton_append,
      List.append_assoc, List.singleton_append]
    rw [List.foldl_cons]

/-- `n = cs.length` redo calls pop the reversed block off the redo stack,
re-run the commands oldest-first, and push them back onto the undo
stack. -/
theorem redoAll_stack_editSem (cs : List EditCmd) :
    ∀ (u r : List EditCmd) (s : Store) (m : Nat) (b : Bool),
    redoAll editSem
      ({ undo_stack := u, redo_stack := r ++ cs.reverse, max_size := m,
         is_executing := b }, s) cs.length =
      ({ undo_stack := u ++ cs, redo_stack := r, max_size := m,
         is_executing := b }, execSeq s cs) := by
  induction cs with
  | nil => intro u r s m b; simp [redoAll, execSeq]
  | cons c rest ih =>
    intro u r s m b
    have hpop : CommandStack.redo editSem
        { undo_stack := u, redo_stack := r ++ (c :: rest).reverse,
          max_size := m, is_executing := b } s =
        ({ undo_stack := u ++ [c], redo_stack := r ++ rest.reverse,
           max_size := m, is_executing := b }, c.execF s, some c) := by
      have hshape : r ++ (c :: rest).reverse = (r ++ rest.reverse) ++ [c] := by
        rw [List.reverse_cons, ← List.append_assoc]
      have hl : (r ++ (c :: rest).reverse).getLast? = some c := by
        rw [hshape]
        exact List.getLast?_concat _
      have hdl : (r ++ (c :: rest).reverse).dropLast = r ++ rest.reverse := by
        rw [hshape]
        exact List.dropLast_concat
      simp only [CommandStack.redo, hl, hdl]
      rfl
    show redoAll editSem ((CommandStack.redo editSem _ s).1,
      (CommandStack.redo editSem _ s).2.1) rest.length = _
    rw [hpop]
    rw [ih (u ++ [c]) r (c.execF s) m b]
    rw [List.append_assoc, List.singleton_append]
    rfl

/-- C4. Undo/redo inverse law through the command stack: execute any
well-captured sequence of Move/Resize/ChangeProperty commands (each
command's old values taken from the component it mutates, as the UI
records them) on a fresh stack whose cap admits the whole sequence; then
one `CommandStack.undo()` per execute restores every observable field
(positions, sizes, and every property read) to its pre-sequence value, and
one `CommandStack.redo()` per undo restores the post-sequence values.
Each command touches only the fields it captured: a resize changes no
position and no property, a move changes no size and no property, a
property change touches no geometry and no other property.  Undo and redo
on empty stacks return absent and change nothing. -/
theorem C4_undo_redo_inverse_law :
    (∀ (cs : List EditCmd) (s : Store) (m : Nat),
      wellCapturedB s cs = true → cs.length ≤ m →
      ObsEq (undoAll editSem (execAll editSem
        ({ undo_stack := [], redo_stack := [], max_size := m,
           is_executing := false }, s) cs) cs.length).2 s ∧
      ObsEq (redoAll editSem (undoAll editSem (execAll editSem
          ({ undo_stack := [], redo_stack := [], max_size := m,
             is_executing := false }, s) cs) cs.length) cs.length).2
        (execAll editSem
          ({ undo_stack := [], redo_stack := [], max_size := m,
             is_executing := false }, s) cs).2) ∧
    (∀ (cid : String) (ow oh nw nh : Int) (s : Store) (k n : String),
      xyOf ((EditCmd.resize cid ow oh nw nh).execF s) k = xyOf s k ∧
      xyOf ((EditCmd.resize cid ow oh nw nh).undoF s) k = xyOf s k ∧
      propOf ((EditCmd.resize cid ow oh nw nh).execF s) k n = propOf s k n ∧
      propOf ((EditCmd.resize cid ow oh nw nh).undoF s) k n = propOf s k n) ∧
    (∀ (cid : String) (ox oy nx ny : Int) (s : Store) (k n : String),
      whOf ((EditCmd.move cid ox oy nx ny).execF s) k = whOf s k ∧
      whOf ((EditCmd.move cid ox oy nx ny).undoF s) k = whOf s k ∧
      propOf ((EditCmd.move cid ox oy nx ny).execF s) k n = propOf s k n ∧
      propOf ((EditCmd.move cid ox oy nx ny).undoF s) k n = propOf s k n) ∧
    (∀ (cid name : String) (ov nv : PValue) (s : Store) (k n : String),
      xyOf ((EditCmd.changeProp cid name ov nv).execF s) k = xyOf s k ∧
      whOf ((EditCmd.changeProp cid name ov nv).execF s) k = whOf s k ∧
      xyOf ((EditCmd.changeProp cid name ov nv).undoF s) k = xyOf s k ∧
      whOf ((EditCmd.changeProp cid name ov nv).undoF s) k = whOf s k ∧
      (k ≠ cid ∨ n ≠ name →
        propOf ((EditCmd.changeProp cid name ov nv).execF s) k n =
          propOf s k n ∧
        propOf ((EditCmd.changeProp cid name ov nv).undoF s) k n =
          propOf s k n)) ∧
    (∀ (α σ : Type) (sem : CmdSem α σ) (r : List α) (m : Nat) (b : Bool) (s : σ),
      CommandStack.undo sem
        { undo_stack := [], redo_stack := r, max_size := m,
          is_executing := b } s =
        ({ undo_stack := [], redo_stack := r, max_size := m,
           is_executing := b }, s, none)) ∧
    (∀ (α σ : Type) (sem : CmdSem α σ) (u : List α) (m : Nat) (b : Bool) (s : σ),
      CommandStack.redo sem
        { undo_stack := u, redo_stack := [], max_size := m,
          is_executing := b } s =
        ({ undo_stack := u, redo_stack := [], max_size := m,
           is_executing := b }, s, none)) := by
  refine ⟨?_, ?_, ?_, ?_, ?_, ?_⟩
  · intro cs s m hwc hlen
    have hrun := execAll_editSem cs [] [] s m (by simpa using hlen)
    simp only [List.nil_append] at hrun
    have hundo := undoAll_stack editSem cs []
      (if cs.isEmpty then ([] : List EditCmd) else []) (execSeq s cs) m false
    simp only [List.nil_append] at hundo
    have hredo := redoAll_stack_editSem cs []
      (if cs.isEmpty then ([] : List EditCmd) else [])
      (cs.reverse.foldl (fun st c => editSem.undoF c st) (execSeq s cs)) m false
    simp only [List.nil_append] at hredo
    rw [hrun, hundo, hredo]
    constructor
    · exact undoSeq_execSeq cs s hwc
    · exact redo_after_undo cs s hwc
  · intro cid ow oh nw nh s k n
    simp only [EditCmd.execF, EditCmd.undoF]
    exact ⟨xyOf_set_wh s cid nw nh k, xyOf_set_wh s cid ow oh k,
      propOf_set_wh s cid nw nh k n, propOf_set_wh s cid ow oh k n⟩
  · intro cid ox oy nx ny s k n
    simp only [EditCmd.execF, EditCmd.undoF]
    exact ⟨whOf_set_xy s cid nx ny k, whOf_set_xy s cid ox oy k,
      propOf_set_xy s cid nx ny k n, propOf_set_xy s cid ox oy k n⟩
  · intro cid name ov nv s k n
    simp only [EditCmd.execF, EditCmd.undoF]
    refine ⟨xyOf_set_prop s cid name nv k, whOf_set_prop s cid name nv k,
      xyOf_set_prop s cid name ov k, whOf_set_prop s cid name ov k, ?_⟩
    intro hne
    rw [propOf_set_prop, propOf_set_prop]
    rcases hne with hne | hne
    · simp [hne]
    · by_cases hk : k = cid <;> simp [hk, hne]
  · intro α σ sem r m b s
    simp [CommandStack.undo]
  · intro α σ sem u m b s
    simp [CommandStack.redo]

/-- The sample store and command sequence exercising C4: a button at
(0, 0) is moved to (50, 60) and its `text` changed from "Button" to
"Submit"; both commands capture their old values correctly. -/
def storeW : Store := [("a", compA)]

/-- The two commands of the C4 witness scenario. -/
def cmdsW : List EditCmd :=
  [EditCmd.move "a" 0 0 50 60,
   EditCmd.changeProp "a" "text" (PValue.s "Button") (PValue.s "Submit")]

/-- Witness for C4: the two-command scenario is well captured, fits the
cap 100, the two undos restore all observations and the two redos restore
the post-state observations; `undo` on the fresh (empty) stack is a
no-op returning absent. -/
theorem C4_witness :
    (wellCapturedB storeW cmdsW = true ∧ cmdsW.length ≤ 100) ∧
    ObsEq (undoAll editSem (execAll editSem
      ({ undo_stack := [], redo_stack := [], max_size := 100,
         is_executing := false }, storeW) cmdsW) cmdsW.length).2 storeW ∧
    ObsEq (redoAll editSem (undoAll editSem (execAll editSem
        ({ undo_stack := [], redo_stack := [], max_size := 100,
           is_executing := false }, storeW) cmdsW) cmdsW.length)
      cmdsW.length).2
      (execAll editSem
        ({ undo_stack := [], redo_stack := [], max_size := 100,
           is_executing := false }, storeW) cmdsW).2 ∧
    CommandStack.undo editSem
      { undo_stack := [], redo_stack := [], max_size := 100,
        is_executing := false } storeW =
      ({ undo_stack := [], redo_stack := [], max_size := 100,
         is_executing := false }, storeW, none) := by
  have h := C4_undo_redo_inverse_law
  have hmain := h.1 cmdsW storeW 100 (by decide) (by decide)
  exact ⟨⟨by decide, by decide⟩, hmain.1, hmain.2,
    h.2.2.2.2.1 EditCmd Store editSem [] 100 false storeW⟩

theorem dictGet_filter {α : Type} (d : List (String × α))
    (pred : String × α → Bool) (k : String)
    (hk : ∀ v : α, pred (k, v) = true) :
    dictGet (d.filter pred) k = dictGet d k := by
  induction d with
  | nil => rfl
  | cons p rest ih =>
    obtain ⟨pk, pv⟩ := p
    rw [List.filter_cons]
    by_cases hpk : pk = k
    · subst hpk
      simp [hk pv, dictGet_cons]
    · by_cases hp : pred (pk, pv) = true
      · simp [hp, dictGet_cons, hpk, ih]
      · simp only [hp, Bool.false_eq_true, if_false]
        rw [ih, dictGet_cons]
        simp [hpk]

/-- C7. Serialization round-trip: a component whose property dict starts
with its variant's declared property names (in declaration order, followed
by any extra keys, all distinct — the layout produced by `__init__` and
preserved by `set_property`) is reproduced exactly by
`from_dict ∘ to_dict` — same id, geometry, parent/children references and
property dict.  Unknown property keys in a fragment survive a
deserialize-then-serialize cycle with their values unchanged.  Pages
round-trip unconditionally, and a `Project` (which always has ≥ 1 page)
round-trips up to the freshly bound `file_path`. -/
theorem C7_serialization_round_trip :
    (∀ (c : BaseComponent) (fid : String),
      c.props.map Prod.fst =
        (initProps c.cls.get_properties).map Prod.fst ++
          ((c.props.map Prod.fst).drop
            (initProps c.cls.get_properties).length) →
      (c.props.map Prod.fst).Nodup →
      BaseComponent.from_dict c.cls fid c.to_dict = c) ∧
    (∀ (cls : ComponentClass) (fid : String) (d : ComponentDict) (k : String),
      k ∉ (initProps cls.get_properties).map Prod.fst →
      (((d.properties.getD []).map Prod.fst)).Nodup →
      dictGet (((BaseComponent.from_dict cls fid d).to_dict).properties.getD [])
          k =
        dictGet (d.properties.getD []) k) ∧
    (∀ pg : Page, Page.from_dict pg.to_dict = pg) ∧
    (∀ (p : Project) (freshPageId now : String) (fp : Option String),
      p.pages ≠ [] →
      Project.from_dict freshPageId now p.to_dict fp =
        { p with file_path := fp }) := by
  refine ⟨?_, ?_, ?_, ?_⟩
  · intro c fid hkeys hnodup
    obtain ⟨cls, id, x, y, width, height, parent_id, children, props⟩ := c
    simp only [BaseComponent.to_dict, BaseComponent.from_dict,
      BaseComponent.init, Option.getD_some]
    simp only at hkeys hnodup
    congr 1
    exact dictUpdate_extend _ props hkeys hnodup
  · intro cls fid d k hk hnodup
    show dictGet (dictUpdate (initProps cls.get_properties)
      (d.properties.getD [])) k = dictGet (d.properties.getD []) k
    rw [dictUpdate_eq_of_nodup (d.properties.getD []) hnodup]
    rw [dictGet_append]
    have hmap : dictGet ((initProps cls.get_properties).map
        (fun p => (p.1, (dictGet (d.properties.getD []) p.1).getD p.2))) k =
        none := by
      rw [dictGet_eq_none_iff, List.map_map]
      have hkeys : ((initProps cls.get_properties).map
          ((fun p : String × PValue => p.1) ∘
            (fun p : String × PValue =>
              (p.1, (dictGet (d.properties.getD []) p.1).getD p.2)))) =
          (initProps cls.get_properties).map Prod.fst := by
        apply List.map_congr_left
        intro p _
        rfl
      rw [hkeys]
      exact hk
    rw [hmap]
    have hpred : ∀ v : PValue,
        ((fun p : String × PValue =>
          (dictGet (initProps cls.get_properties) p.1).isNone) (k, v)) = true := by
      intro v
      simp only
      rw [Option.isNone_iff_eq_none, dictGet_eq_none_iff]
      exact hk
    rw [dictGet_filter _ _ k hpred]
    cases dictGet (d.properties.getD []) k <;> rfl
  · intro pg
    rfl
  · intro p fpid now fp hne
    obtain ⟨name, description, version, created_at, modified_at, pages,
      assets, settings, file_path⟩ := p
    simp only at hne
    simp only [Project.to_dict, Project.from_dict, Project.make,
      Project.postInit, Option.getD_some]
    have hpages : (pages.map Page.to_dict).map Page.from_dict = pages := by
      rw [List.map_map]
      have : (Page.from_dict ∘ Page.to_dict) = id := by
        funext pg
        rfl
      rw [this, List.map_id]
    simp only [hpages]
    have hempty : pages.isEmpty = false := by
      cases pages with
      | nil => exact absurd rfl hne
      | cons a l => rfl
    simp [hempty]

/-- A sample component with a non-default text and an extra unknown
property key, exercising the C7 round-trip. -/
def compW : BaseComponent :=
  (BaseComponent.init ButtonComponent "w1" 1 2 120 40).set_property "text"
    (PValue.s "Go") |>.set_property "custom_key" (PValue.i 7)

/-- Witness for C7: the sample component (declared keys in order plus one
extra key, all distinct) survives `from_dict ∘ to_dict` exactly; an
unknown key `custom_key` in a fragment survives deserialize-then-serialize
with its value; pages and the two-page sample project round-trip. -/
theorem C7_witness :
    (compW.props.map Prod.fst =
      (initProps compW.cls.get_properties).map Prod.fst ++
        ((compW.props.map Prod.fst).drop
          (initProps compW.cls.get_properties).length) ∧
     (compW.props.map Prod.fst).Nodup) ∧
    BaseComponent.from_dict compW.cls "w2" compW.to_dict = compW ∧
    dictGet (((BaseComponent.from_dict ButtonComponent "w3"
        { properties := some [("custom_key", PValue.i 7)] }).to_dict).properties.getD
        []) "custom_key" = some (PValue.i 7) ∧
    Page.from_dict (Page.to_dict { id := "p1", name := "Main Page" }) =
      { id := "p1", name := "Main Page" } ∧
    Project.from_dict "u9" "t9" projTwoPages.to_dict (some "a.zeus") =
      { projTwoPages with file_path := some "a.zeus" } := by
  have h := C7_serialization_round_trip
  refine ⟨⟨by decide, by decide⟩, ?_, ?_, h.2.2.1 _, ?_⟩
  · exact h.1 compW "w2" (by decide) (by decide)
  · have := h.2.1 ButtonComponent "w3"
      { properties := some [("custom_key", PValue.i 7)] } "custom_key"
      (by decide) (by decide)
    rw [this]
    rfl
  · exact h.2.2.2 projTwoPages "u9" "t9" (some "a.zeus") (by decide)

end Zeus
